import Mathlib

/-! Simple 3D game: planar collision, player movement and the frame loop.

Shallow embedding of the simulation core of `src/model_loading.cpp`.

Scalars: the C++ `float` values are modelled as elements of an arbitrary
linearly ordered field `α` (exact arithmetic; instantiate `α := ℚ` to evaluate
on concrete inputs, `α := ℝ` where square roots are needed).  NaN and
infinities are outside the model.

Rounding: where a property depends on where a rounded result lands (the state
after a push, the camera blend), the same code is also given with the result
of every float operation passed through a rounding function (`IntersectsR`,
`ResolveStaticR`, `mixR`); the identity gives the exact code back and
`roundF32` is the binary32 rounding of the compiled program.

Reference parameters (`AABB2D&`, `glm::vec3&`, `float&`) become explicit state
passing: a function returns the new values of everything it can write.  The
render loop is a function from the loop state and one frame's input to the
next loop state.

Division by zero: where the source normalises a vector without first checking
its length, the embedding returns `none` when the length is zero, since the
source then computes no valid vector.
-/

namespace Game

/-- Model of `glm::vec2`. -/
structure Vec2 (α : Type) where
  x : α
  y : α
deriving DecidableEq, Repr

/-- Model of `glm::vec3`. -/
structure Vec3 (α : Type) where
  x : α
  y : α
  z : α
deriving DecidableEq, Repr

/-- Model of `struct AABB2D`: `center` is the xz centre (its `y` field holds the
world z coordinate), `halfExt` the half extents on x and z. -/
structure AABB2D (α : Type) where
  center : Vec2 α
  halfExt : Vec2 α
deriving DecidableEq, Repr

/-- The three objects a call `ResolveStatic(statBox, dynBox, playerPos)` holds
references to; `statBox` is a `const` reference. -/
structure ResolveArgs (α : Type) where
  statBox : AABB2D α
  dynBox : AABB2D α
  playerPos : Vec3 α
deriving DecidableEq, Repr

section Collision

variable {α : Type} [LinearOrderedField α]

/-- Embedding of `Intersects` (source lines 59-63). -/
def Intersects (a b : AABB2D α) : Bool :=
  if |a.center.x - b.center.x| > a.halfExt.x + b.halfExt.x then false
  else if |a.center.y - b.center.y| > a.halfExt.y + b.halfExt.y then false
  else true

/-- Embedding of `ResolveStatic` (source lines 66-82): the argument objects
after the call. -/
def ResolveStatic (m : ResolveArgs α) : ResolveArgs α :=
  let statBox := m.statBox
  let dynBox := m.dynBox
  let playerPos := m.playerPos
  let dx := dynBox.center.x - statBox.center.x
  let px := (dynBox.halfExt.x + statBox.halfExt.x) - |dx|
  let dz := dynBox.center.y - statBox.center.y
  let pz := (dynBox.halfExt.y + statBox.halfExt.y) - |dz|
  if px < 0 ∨ pz < 0 then m
  else if px < pz then
    let sx : α := if dx < 0 then -1 else 1
    { statBox := statBox
      dynBox := { dynBox with center := { dynBox.center with x := dynBox.center.x + sx * px } }
      playerPos := { playerPos with x := playerPos.x + sx * px } }
  else
    let sz : α := if dz < 0 then -1 else 1
    { statBox := statBox
      dynBox := { dynBox with center := { dynBox.center with y := dynBox.center.y + sz * pz } }
      playerPos := { playerPos with z := playerPos.z + sz * pz } }

/-- Penetration depth on x as the spec words it: sum of the x half extents
minus the absolute x centre delta. -/
def penX (s d : AABB2D α) : α :=
  (d.halfExt.x + s.halfExt.x) - |d.center.x - s.center.x|

/-- Penetration depth on z as the spec words it: sum of the z half extents
minus the absolute z centre delta. -/
def penZ (s d : AABB2D α) : α :=
  (d.halfExt.y + s.halfExt.y) - |d.center.y - s.center.y|

/-- Sign used for the push direction: `-1` for a negative centre delta, `+1`
otherwise (zero included). -/
def pushSign (delta : α) : α := if delta < 0 then -1 else 1

end Collision

/-- Scenario 2 of the spec: the first rock, centre (3,-2), half extents 1.2. -/
def rock0 : AABB2D ℚ := { center := ⟨3, -2⟩, halfExt := ⟨6/5, 6/5⟩ }

/-- Scenario 2 of the spec: the player box placed on the centre of the rock. -/
def playerOnRock0 : AABB2D ℚ := { center := ⟨3, -2⟩, halfExt := ⟨1/2, 2/5⟩ }

/-- Scenario 2 of the spec: the call's arguments. -/
def scenario2 : ResolveArgs ℚ :=
  { statBox := rock0, dynBox := playerOnRock0, playerPos := ⟨3, 0, -2⟩ }

/-- The player at the origin, clear of the first rock on both axes. -/
def farFromRock0 : ResolveArgs ℚ :=
  { statBox := rock0
    dynBox := { center := ⟨0, 0⟩, halfExt := ⟨1/2, 2/5⟩ }
    playerPos := ⟨0, 0, 0⟩ }

/-- The player box overlapping the right edge of the first rock by 0.2. -/
def grazeRock0 : ResolveArgs ℚ :=
  { statBox := rock0
    dynBox := { center := ⟨9/2, -2⟩, halfExt := ⟨1/2, 2/5⟩ }
    playerPos := ⟨9/2, 0, -2⟩ }

/-! ## Player movement (`processInput`) -/

/-- The math functions the source calls from outside the repository:
`std::sqrt` (through `glm::length` and `glm::normalize`), `std::atan2`,
`std::sin`, `std::cos`, and the constant pi (through `glm::degrees` and
`glm::radians`).  They are parameters of the embedding. -/
structure Libm (α : Type) where
  sqrt : α → α
  atan2 : α → α → α
  pi : α
  sin : α → α
  cos : α → α

/-- The keys `processInput` polls with `glfwGetKey`: true means `GLFW_PRESS`. -/
structure Keys where
  keyW : Bool
  keyS : Bool
  keyA : Bool
  keyD : Bool
  keyEscape : Bool
deriving DecidableEq, Repr

/-- What `processInput` can write: the two reference parameters and the
window's should-close flag. -/
structure InputResult (α : Type) where
  playerPos : Vec3 α
  playerYawDeg : α
  shouldClose : Bool

section Movement

variable {α : Type} [LinearOrderedField α]

/-- Componentwise sum, `glm::vec3 + glm::vec3`. -/
def Vec3.add (a b : Vec3 α) : Vec3 α := ⟨a.x + b.x, a.y + b.y, a.z + b.z⟩

/-- Componentwise difference, `glm::vec3 - glm::vec3`. -/
def Vec3.sub (a b : Vec3 α) : Vec3 α := ⟨a.x - b.x, a.y - b.y, a.z - b.z⟩

/-- Vector times scalar, `glm::vec3 * float`. -/
def Vec3.scale (a : Vec3 α) (s : α) : Vec3 α := ⟨a.x * s, a.y * s, a.z * s⟩

/-- Inner product, `glm::dot`. -/
def Vec3.dot (a b : Vec3 α) : α := a.x * b.x + a.y * b.y + a.z * b.z

/-- Euclidean length, `glm::length(v) = sqrt(dot(v, v))`. -/
def Vec3.length (L : Libm α) (v : Vec3 α) : α := L.sqrt (Vec3.dot v v)

/-- Unit vector, `glm::normalize(v) = v * inversesqrt(dot(v, v))`. -/
def Vec3.normalize (L : Libm α) (v : Vec3 α) : Vec3 α :=
  Vec3.scale v (1 / L.sqrt (Vec3.dot v v))

/-- Radians to degrees, `glm::degrees`. -/
def degrees (L : Libm α) (r : α) : α := r * (180 / L.pi)

/-- The direction accumulated from the four movement keys (source lines
88-92). -/
def inputDir (k : Keys) : Vec3 α :=
  let dir : Vec3 α := ⟨0, 0, 0⟩
  let dir := if k.keyW then { dir with z := dir.z - 1 } else dir
  let dir := if k.keyS then { dir with z := dir.z + 1 } else dir
  let dir := if k.keyA then { dir with x := dir.x - 1 } else dir
  let dir := if k.keyD then { dir with x := dir.x + 1 } else dir
  dir

/-- Embedding of `processInput` (source lines 87-103).  The global `deltaTime`
and the window's should-close flag are explicit arguments. -/
def processInput (L : Libm α) (k : Keys) (deltaTime : α) (shouldClose : Bool)
    (playerPos : Vec3 α) (playerSpeed : α) (playerYawDeg : α) : InputResult α :=
  let dir : Vec3 α := inputDir k
  let moved : Vec3 α × α :=
    if Vec3.length L dir > 0 then
      let dir := Vec3.normalize L dir
      (Vec3.add playerPos
          (Vec3.scale (Vec3.scale ⟨dir.x, 0, dir.z⟩ playerSpeed) deltaTime),
        degrees L (L.atan2 dir.x (-dir.z)))
    else (playerPos, playerYawDeg)
  { playerPos := moved.1
    playerYawDeg := moved.2
    shouldClose := if k.keyEscape then true else shouldClose }

/-- What the embedding assumes of `std::sqrt`: on non-negative arguments it
returns the non-negative square root. -/
def SqrtSpec (L : Libm α) : Prop :=
  ∀ x : α, 0 ≤ x → 0 ≤ L.sqrt x ∧ L.sqrt x * L.sqrt x = x

end Movement

/-- The math functions over the reals. -/
noncomputable def realLibm : Libm ℝ :=
  { sqrt := Real.sqrt
    atan2 := fun y x => Complex.arg ⟨x, y⟩
    pi := Real.pi
    sin := Real.sin
    cos := Real.cos }

/-- No key pressed. -/
def noKeys : Keys := ⟨false, false, false, false, false⟩

/-- Forward and right pressed together (a diagonal). -/
def keysWD : Keys := ⟨true, false, false, true, false⟩

/-- All four movement keys pressed together. -/
def keysAll : Keys := ⟨true, true, true, true, false⟩

/-! ## Enemy patrol, follow camera and the frame loop (`main`) -/

/-- The fields of the global `camera` object that `updateFollowCamera` writes.
A basis vector is `none` when the source computes it by normalising a vector of
length zero (a division by zero, giving no valid vector). -/
structure Camera (α : Type) where
  Position : Vec3 α
  Front : Option (Vec3 α)
  Right : Option (Vec3 α)
  Up : Option (Vec3 α)

/-- Model of the local `struct Rock` of `main`. -/
structure Rock (α : Type) where
  pos : Vec3 α
  scale : α
  box : AABB2D α

/-- The mutable state of the render loop: the globals `deltaTime`, `lastFrame`
and `camera`, the locals of `main` the loop reads or writes, the window's
should-close flag and the text written to `std::cout`. -/
structure World (α : Type) where
  deltaTime : α
  lastFrame : α
  camera : Camera α
  playerPos : Vec3 α
  playerYawDeg : α
  rocks : List (Rock α)
  itemPos : Vec3 α
  itemCollected : Bool
  enemyPos : Vec3 α
  enemyPatrolAmp : α
  enemyPatrolSpeed : α
  enemyDir : α
  playerBox : AABB2D α
  itemBox : AABB2D α
  enemyBox : AABB2D α
  shouldClose : Bool
  out : List String

/-- What one pass of the loop reads from outside: `glfwGetTime()` and the key
states. -/
structure FrameInput (α : Type) where
  currentFrame : α
  keys : Keys

section Frame

variable {α : Type} [LinearOrderedField α]

/-- Componentwise difference, `glm::vec2 - glm::vec2`. -/
def Vec2.sub (a b : Vec2 α) : Vec2 α := ⟨a.x - b.x, a.y - b.y⟩

/-- Inner product of `glm::vec2`. -/
def Vec2.dot (a b : Vec2 α) : α := a.x * b.x + a.y * b.y

/-- Euclidean length of a `glm::vec2`, `sqrt(dot(v, v))`. -/
def Vec2.length (L : Libm α) (v : Vec2 α) : α := L.sqrt (Vec2.dot v v)

/-- The call `glm::normalize(v) = v * inversesqrt(dot(v, v))` on a `glm::vec2`,
made without a guard: `none` when the square root it divides by is zero. -/
def Vec2.normalizeUnguarded (L : Libm α) (v : Vec2 α) : Option (Vec2 α) :=
  if L.sqrt (Vec2.dot v v) = 0 then none
  else some ⟨v.x * (1 / L.sqrt (Vec2.dot v v)), v.y * (1 / L.sqrt (Vec2.dot v v))⟩

/-- The call `glm::normalize(v)` on a `glm::vec3`, made without a guard: `none`
when the square root it divides by is zero. -/
def Vec3.normalizeUnguarded (L : Libm α) (v : Vec3 α) : Option (Vec3 α) :=
  if L.sqrt (Vec3.dot v v) = 0 then none else some (Vec3.normalize L v)

/-- Vector product, `glm::cross`. -/
def Vec3.cross (a b : Vec3 α) : Vec3 α :=
  ⟨a.y * b.z - b.y * a.z, a.z * b.x - b.z * a.x, a.x * b.y - b.x * a.y⟩

/-- Linear blend, `glm::mix(x, y, a) = x * (1 - a) + y * a`. -/
def Vec3.mix (x y : Vec3 α) (a : α) : Vec3 α :=
  ⟨x.x * (1 - a) + y.x * a, x.y * (1 - a) + y.y * a, x.z * (1 - a) + y.z * a⟩

/-- Degrees to radians, `glm::radians`. -/
def radians (L : Libm α) (d : α) : α := d * (L.pi / 180)

/-- The local `desired` of `updateFollowCamera` (source lines 109-111): the
player position plus the back vector times `distBack` plus the height. -/
def desiredCameraPos (L : Libm α) (playerPos : Vec3 α) (playerYawDeg distBack height : α) :
    Vec3 α :=
  let yawRad := radians L playerYawDeg
  let back : Vec3 α := ⟨-L.sin yawRad, 0, -L.cos yawRad⟩
  Vec3.add (Vec3.add playerPos (Vec3.scale back distBack)) ⟨0, height, 0⟩

/-- Embedding of `updateFollowCamera` (source lines 108-117); the global
`camera` is an explicit argument and the result. -/
def updateFollowCamera (L : Libm α) (camera : Camera α) (playerPos : Vec3 α)
    (playerYawDeg distBack height smoothAlpha : α) : Camera α :=
  let desired := desiredCameraPos L playerPos playerYawDeg distBack height
  let position := Vec3.mix camera.Position desired smoothAlpha
  let front := Vec3.normalizeUnguarded L (Vec3.sub playerPos position)
  let right := front.bind fun f => Vec3.normalizeUnguarded L (Vec3.cross f ⟨0, 1, 0⟩)
  let up := right.bind fun r => front.bind fun f => Vec3.normalizeUnguarded L (Vec3.cross r f)
  { Position := position, Front := front, Right := right, Up := up }

/-- Embedding of the enemy patrol (source lines 207-209) on the enemy's x
coordinate and direction; the centre of the patrol is the literal `-6`. -/
def patrolStep (enemyPatrolAmp enemyPatrolSpeed deltaTime : α) (s : α × α) : α × α :=
  let x := s.1 + s.2 * enemyPatrolSpeed * deltaTime
  let dir := if x > -6 + enemyPatrolAmp then -1 else s.2
  let dir := if x < -6 - enemyPatrolAmp then 1 else dir
  (x, dir)

/-- The patrol run over a sequence of frame times, one step per frame. -/
def patrolSteps (enemyPatrolAmp enemyPatrolSpeed : α) (s : α × α) (dts : List α) : α × α :=
  dts.foldl (fun st dt => patrolStep enemyPatrolAmp enemyPatrolSpeed dt st) s

/-- Source lines 199-201: the frame time. -/
def frameTime (w : World α) (currentFrame : α) : World α :=
  { w with deltaTime := currentFrame - w.lastFrame, lastFrame := currentFrame }

/-- Source line 204: the call of `processInput` with speed `3.0f`. -/
def movePlayer (L : Libm α) (keys : Keys) (w : World α) : World α :=
  let r := processInput L keys w.deltaTime w.shouldClose w.playerPos 3 w.playerYawDeg
  { w with playerPos := r.playerPos, playerYawDeg := r.playerYawDeg,
           shouldClose := r.shouldClose }

/-- Source lines 207-209 on the loop state. -/
def patrolEnemy (w : World α) : World α :=
  let s := patrolStep w.enemyPatrolAmp w.enemyPatrolSpeed w.deltaTime (w.enemyPos.x, w.enemyDir)
  { w with enemyPos := { w.enemyPos with x := s.1 }, enemyDir := s.2 }

/-- Source lines 212-214: the three box centres are reassigned from the
positions. -/
def refreshBoxes (w : World α) : World α :=
  { w with playerBox := { w.playerBox with center := ⟨w.playerPos.x, w.playerPos.z⟩ },
           enemyBox := { w.enemyBox with center := ⟨w.enemyPos.x, w.enemyPos.z⟩ },
           itemBox := { w.itemBox with center := ⟨w.itemPos.x, w.itemPos.z⟩ } }

/-- Body of the loop over the rocks (source lines 218-220). -/
def collideRock (w : World α) (r : Rock α) : World α :=
  if Intersects w.playerBox r.box then
    let m := ResolveStatic { statBox := r.box, dynBox := w.playerBox, playerPos := w.playerPos }
    { w with playerBox := m.dynBox, playerPos := m.playerPos }
  else w

/-- Source lines 217-221: the loop over the rocks, in the order of the
collection. -/
def collideRocks (w : World α) : World α := w.rocks.foldl collideRock w

/-- The text of the pickup notification. -/
def pickupMessage : String := "Picked up the backpack!\n"

/-- Source lines 224-227: the item pickup. -/
def pickupItem (w : World α) : World α :=
  if !w.itemCollected && Intersects w.playerBox w.itemBox then
    { w with itemCollected := true, out := w.out ++ [pickupMessage] }
  else w

/-- Source lines 230-235: the knockback by the enemy, distance `1.2f`.  The
result is `none` when `glm::normalize` divides by zero. -/
def knockback (L : Libm α) (w : World α) : Option (World α) :=
  if Intersects w.playerBox w.enemyBox then
    match Vec2.normalizeUnguarded L (Vec2.sub w.playerBox.center w.enemyBox.center) with
    | none => none
    | some pushDir =>
      let playerPos : Vec3 α :=
        { x := w.playerPos.x + pushDir.x * (6 / 5)
          y := w.playerPos.y
          z := w.playerPos.z + pushDir.y * (6 / 5) }
      some { w with playerPos := playerPos
                    playerBox := { w.playerBox with center := ⟨playerPos.x, playerPos.z⟩ } }
  else some w

/-- Source line 238: the camera follows the player, back `4.5f`, height `2.2f`
and the default smoothing `0.15f`. -/
def followCamera (L : Libm α) (w : World α) : World α :=
  { w with camera :=
      updateFollowCamera L w.camera w.playerPos w.playerYawDeg (9 / 2) (11 / 5) (3 / 20) }

/-- The loop state at the rock loop: after timing, input, patrol and the
refresh of the boxes (source lines 199-214). -/
def beforeRocks (L : Libm α) (w : World α) (i : FrameInput α) : World α :=
  refreshBoxes (patrolEnemy (movePlayer L i.keys (frameTime w i.currentFrame)))

/-- The loop state at the item test: after the rock loop. -/
def beforeItem (L : Libm α) (w : World α) (i : FrameInput α) : World α :=
  collideRocks (beforeRocks L w i)

/-- The loop state at the enemy test: after the item pickup. -/
def beforeEnemy (L : Libm α) (w : World α) (i : FrameInput α) : World α :=
  pickupItem (beforeItem L w i)

/-- One pass of the render loop (source lines 198-238), drawing left out. -/
def tick (L : Libm α) (w : World α) (i : FrameInput α) : Option (World α) :=
  (knockback L (beforeEnemy L w i)).map (followCamera L)

/-- The passes of the loop over a sequence of inputs, one pass per input; the
loop guard only decides how many passes there are. -/
def ticks (L : Libm α) (w : World α) : List (FrameInput α) → Option (World α)
  | [] => some w
  | i :: is => (tick L w i).bind fun w1 => ticks L w1 is

/-- Whether the player box overlaps the item box at the item test of the pass
run from `w` on input `i`. -/
def overlapsItem (L : Libm α) (w : World α) (i : FrameInput α) : Bool :=
  Intersects (beforeItem L w i).playerBox (beforeItem L w i).itemBox

/-- Box centres agree with the positions of their owners. -/
def BoxesSynced (w : World α) : Prop :=
  w.playerBox.center = ⟨w.playerPos.x, w.playerPos.z⟩ ∧
  w.enemyBox.center = ⟨w.enemyPos.x, w.enemyPos.z⟩ ∧
  w.itemBox.center = ⟨w.itemPos.x, w.itemPos.z⟩

/-- The state `main` builds before the loop (source lines 159-194), given the
global camera. -/
def initialWorld (camera : Camera α) : World α :=
  { deltaTime := 0
    lastFrame := 0
    camera := camera
    playerPos := ⟨0, 0, 0⟩
    playerYawDeg := 0
    rocks :=
      [ { pos := ⟨3, 0, -2⟩, scale := 6 / 5,
          box := { center := ⟨3, -2⟩, halfExt := ⟨1 * (6 / 5), 1 * (6 / 5)⟩ } },
        { pos := ⟨-4, 0, -1⟩, scale := 8 / 5,
          box := { center := ⟨-4, -1⟩, halfExt := ⟨1 * (8 / 5), 1 * (8 / 5)⟩ } },
        { pos := ⟨0, 0, -6⟩, scale := 2,
          box := { center := ⟨0, -6⟩, halfExt := ⟨1 * 2, 1 * 2⟩ } },
        { pos := ⟨5, 0, 3⟩, scale := 3 / 2,
          box := { center := ⟨5, 3⟩, halfExt := ⟨1 * (3 / 2), 1 * (3 / 2)⟩ } } ]
    itemPos := ⟨2, 0, -4⟩
    itemCollected := false
    enemyPos := ⟨-6, 0, 2⟩
    enemyPatrolAmp := 3
    enemyPatrolSpeed := 1
    enemyDir := 1
    playerBox := { center := ⟨0, 0⟩, halfExt := ⟨1 / 2, 2 / 5⟩ }
    itemBox := { center := ⟨2, -4⟩, halfExt := ⟨3 / 5, 3 / 5⟩ }
    enemyBox := { center := ⟨-6, 2⟩, halfExt := ⟨7 / 10, 7 / 10⟩ }
    shouldClose := false
    out := [] }

/-- What the patrol keeps from step to step when every frame lasts `dt`. -/
def PatrolInv (a v dt : α) (s : α × α) : Prop :=
  (s.2 = 1 ∨ s.2 = -1) ∧ -6 - a - v * dt ≤ s.1 ∧ s.1 ≤ -6 + a + v * dt ∧
  (-6 + a < s.1 → s.2 = -1) ∧ (s.1 < -6 - a → s.2 = 1)

end Frame

/-- The camera at its start position (source line 35), looking along -z. -/
def startCamera : Camera ℝ :=
  { Position := ⟨0, 3, 6⟩, Front := some ⟨0, 0, -1⟩, Right := some ⟨1, 0, 0⟩,
    Up := some ⟨0, 1, 0⟩ }

/-- Only forward pressed. -/
def keysW : Keys := ⟨true, false, false, false, false⟩


section FrameScenarios

variable {α : Type} [LinearOrderedField α]

/-- The start state with the player standing on the enemy's start position. -/
def clashWorld (camera : Camera α) : World α :=
  { initialWorld camera with playerPos := ⟨-6, 0, 2⟩ }

/-- The start state with the player next to the item, clear of every rock. -/
def nearItemWorld (camera : Camera α) : World α :=
  { initialWorld camera with playerPos := ⟨29 / 10, 0, -4⟩ }

/-- The start state with the previous frame stamped at time 2. -/
def lateStampWorld (camera : Camera α) : World α :=
  { initialWorld camera with lastFrame := 2 }

/-- The start state with the player half a unit to the right of the enemy. -/
def nearEnemyWorld (camera : Camera α) : World α :=
  { initialWorld camera with playerPos := ⟨-11 / 2, 0, 2⟩ }

end FrameScenarios


/-! ## The same code with every float operation rounded -/

/-- The binary32 exponent of a non-negative rational `a`: the largest `e` in
[-126, 127] with `2 ^ e ≤ a`, and `-126` when there is none (subnormal
numbers share the exponent of the smallest normal ones). -/
def exponentF32 (a : ℚ) : Int :=
  (List.range 254).foldl
    (fun e k => if (2 : ℚ) ^ ((k : Int) - 126) ≤ a then (k : Int) - 126 else e) (-126)

/-- Rounding of a non-negative rational to the binary32 grid, to nearest with
ties to even: the value a binary32 operation stores for an exact result `a`.
The grid step is `2 ^ (e - 23)` for the exponent `e` of `a`.  Overflow (results
of `2 ^ 128` and above) is not modelled. -/
def roundPos (a : ℚ) : ℚ :=
  let ulp : ℚ := (2 : ℚ) ^ (exponentF32 a - 23)
  let m : ℚ := a / ulp
  let f : Int := ⌊m⌋
  let r : ℚ := m - f
  let n : Int :=
    if r < 1 / 2 then f else if r > 1 / 2 then f + 1 else if f % 2 = 0 then f else f + 1
  n * ulp

/-- Binary32 rounding (IEEE 754 round to nearest, ties to even) of a rational:
the magnitude is rounded and the sign kept. -/
def roundF32 (q : ℚ) : ℚ := if q < 0 then -roundPos (-q) else roundPos q

section Rounded

variable {α : Type} [LinearOrderedField α]

/-- `Intersects` (source lines 59-63) with the result of every float operation
passed through the rounding `fl`; `fl := id` gives `Intersects`, and
`fl := roundF32` the binary32 arithmetic of the compiled program. -/
def IntersectsR (fl : α → α) (a b : AABB2D α) : Bool :=
  if |fl (a.center.x - b.center.x)| > fl (a.halfExt.x + b.halfExt.x) then false
  else if |fl (a.center.y - b.center.y)| > fl (a.halfExt.y + b.halfExt.y) then false
  else true

/-- `ResolveStatic` (source lines 66-82) with the result of every float
operation passed through the rounding `fl`; `fl := id` gives `ResolveStatic`. -/
def ResolveStaticR (fl : α → α) (m : ResolveArgs α) : ResolveArgs α :=
  let statBox := m.statBox
  let dynBox := m.dynBox
  let playerPos := m.playerPos
  let dx := fl (dynBox.center.x - statBox.center.x)
  let px := fl (fl (dynBox.halfExt.x + statBox.halfExt.x) - |dx|)
  let dz := fl (dynBox.center.y - statBox.center.y)
  let pz := fl (fl (dynBox.halfExt.y + statBox.halfExt.y) - |dz|)
  if px < 0 ∨ pz < 0 then m
  else if px < pz then
    let sx : α := if dx < 0 then -1 else 1
    { statBox := statBox
      dynBox :=
        { dynBox with center := { dynBox.center with x := fl (dynBox.center.x + fl (sx * px)) } }
      playerPos := { playerPos with x := fl (playerPos.x + fl (sx * px)) } }
  else
    let sz : α := if dz < 0 then -1 else 1
    { statBox := statBox
      dynBox :=
        { dynBox with center := { dynBox.center with y := fl (dynBox.center.y + fl (sz * pz)) } }
      playerPos := { playerPos with z := fl (playerPos.z + fl (sz * pz)) } }

/-- The local `px` of `ResolveStatic` as computed with the rounding `fl`. -/
def penXR (fl : α → α) (s d : AABB2D α) : α :=
  fl (fl (d.halfExt.x + s.halfExt.x) - |fl (d.center.x - s.center.x)|)

/-- The local `pz` of `ResolveStatic` as computed with the rounding `fl`. -/
def penZR (fl : α → α) (s d : AABB2D α) : α :=
  fl (fl (d.halfExt.y + s.halfExt.y) - |fl (d.center.y - s.center.y)|)

/-- One coordinate of `glm::mix(x, y, a) = x * (1 - a) + y * a` with the result
of every float operation passed through the rounding `fl`. -/
def mixR (fl : α → α) (x y a : α) : α := fl (fl (x * fl (1 - a)) + fl (y * a))

/-- Strictly between: `b` lies strictly between `a` and `c`. -/
def StrictlyBetween (a b c : α) : Prop := (a < b ∧ b < c) ∨ (c < b ∧ b < a)

/-- A camera already at the position desired for a player at the origin
facing yaw 0, with back distance 4.5 and height 2.2. -/
def restingCamera : Camera α :=
  { Position := ⟨0, 11 / 5, -(9 / 2)⟩, Front := some ⟨0, 0, 1⟩, Right := some ⟨-1, 0, 0⟩,
    Up := some ⟨0, 1, 0⟩ }

end Rounded

/-- The fourth rock (centre (5, 3), half extents 1.5) and the player at
(5, 0, 4), in binary32 values. -/
def pastContact32 : ResolveArgs ℚ :=
  { statBox := { center := ⟨5, 3⟩, halfExt := ⟨roundF32 (3 / 2), roundF32 (3 / 2)⟩ }
    dynBox := { center := ⟨5, 4⟩, halfExt := ⟨roundF32 (1 / 2), roundF32 (2 / 5)⟩ }
    playerPos := ⟨5, 0, 4⟩ }

/-- The first rock (centre (3, -2), half extents `1.2f`) and the player at
(1.5, 0, `-0.55f`), in binary32 values. -/
def shortOfContact32 : ResolveArgs ℚ :=
  { statBox := { center := ⟨3, -2⟩, halfExt := ⟨roundF32 (6 / 5), roundF32 (6 / 5)⟩ }
    dynBox := { center := ⟨3 / 2, roundF32 (-(11 / 20))⟩,
                halfExt := ⟨roundF32 (1 / 2), roundF32 (2 / 5)⟩ }
    playerPos := ⟨3 / 2, 0, roundF32 (-(11 / 20))⟩ }

/-- Scenario 2 of the spec in binary32 values. -/
def scenario2F32 : ResolveArgs ℚ :=
  { statBox := { center := ⟨3, -2⟩, halfExt := ⟨roundF32 (6 / 5), roundF32 (6 / 5)⟩ }
    dynBox := { center := ⟨3, -2⟩, halfExt := ⟨roundF32 (1 / 2), roundF32 (2 / 5)⟩ }
    playerPos := ⟨3, 0, -2⟩ }


/-! ## Helper lemmas for the collision code -/

section CollisionLemmas

variable {α : Type} [LinearOrderedField α]

/-- Characterisation of `Intersects`: true exactly when neither early return
fires. -/
theorem Intersects_eq_true_iff (a b : AABB2D α) :
    Intersects a b = true ↔
      |a.center.x - b.center.x| ≤ a.halfExt.x + b.halfExt.x ∧
      |a.center.y - b.center.y| ≤ a.halfExt.y + b.halfExt.y := by
  unfold Intersects
  by_cases hx : |a.center.x - b.center.x| > a.halfExt.x + b.halfExt.x
  · simp only [hx, if_true]
    constructor
    · intro h; cases h
    · rintro ⟨h, -⟩; exact absurd h (not_le.mpr hx)
  · by_cases hz : |a.center.y - b.center.y| > a.halfExt.y + b.halfExt.y
    · simp only [hx, hz, if_true, if_false]
      constructor
      · intro h; cases h
      · rintro ⟨-, h⟩; exact absurd h (not_le.mpr hz)
    · simp only [hx, hz, if_false]
      exact ⟨fun _ => ⟨not_lt.mp hx, not_lt.mp hz⟩, fun _ => trivial⟩

/-- First branch of `ResolveStatic`: the early return. -/
theorem ResolveStatic_separated (m : ResolveArgs α)
    (h : penX m.statBox m.dynBox < 0 ∨ penZ m.statBox m.dynBox < 0) :
    ResolveStatic m = m := by
  unfold penX penZ at h
  simp only [ResolveStatic, h, if_true]

/-- Second branch of `ResolveStatic`: the push along x. -/
theorem ResolveStatic_shallow_x (m : ResolveArgs α)
    (hx : 0 ≤ penX m.statBox m.dynBox) (hz : 0 ≤ penZ m.statBox m.dynBox)
    (hlt : penX m.statBox m.dynBox < penZ m.statBox m.dynBox) :
    ResolveStatic m =
      { statBox := m.statBox
        dynBox :=
          { center :=
              ⟨m.dynBox.center.x
                + pushSign (m.dynBox.center.x - m.statBox.center.x) * penX m.statBox m.dynBox,
               m.dynBox.center.y⟩
            halfExt := m.dynBox.halfExt }
        playerPos :=
          ⟨m.playerPos.x
            + pushSign (m.dynBox.center.x - m.statBox.center.x) * penX m.statBox m.dynBox,
           m.playerPos.y, m.playerPos.z⟩ } := by
  have hn : ¬ (penX m.statBox m.dynBox < 0 ∨ penZ m.statBox m.dynBox < 0) := by
    rintro (h | h)
    · exact absurd h (not_lt.mpr hx)
    · exact absurd h (not_lt.mpr hz)
  unfold penX penZ at hn hlt
  unfold penX pushSign
  simp only [ResolveStatic, hn, hlt, if_true, if_false]

/-- Third branch of `ResolveStatic`: the push along z. -/
theorem ResolveStatic_shallow_z (m : ResolveArgs α)
    (hx : 0 ≤ penX m.statBox m.dynBox) (hz : 0 ≤ penZ m.statBox m.dynBox)
    (hge : ¬ penX m.statBox m.dynBox < penZ m.statBox m.dynBox) :
    ResolveStatic m =
      { statBox := m.statBox
        dynBox :=
          { center :=
              ⟨m.dynBox.center.x,
               m.dynBox.center.y
                + pushSign (m.dynBox.center.y - m.statBox.center.y) * penZ m.statBox m.dynBox⟩
            halfExt := m.dynBox.halfExt }
        playerPos :=
          ⟨m.playerPos.x, m.playerPos.y,
           m.playerPos.z
            + pushSign (m.dynBox.center.y - m.statBox.center.y) * penZ m.statBox m.dynBox⟩ } := by
  have hn : ¬ (penX m.statBox m.dynBox < 0 ∨ penZ m.statBox m.dynBox < 0) := by
    rintro (h | h)
    · exact absurd h (not_lt.mpr hx)
    · exact absurd h (not_lt.mpr hz)
  unfold penX penZ at hn hge
  unfold penZ pushSign
  simp only [ResolveStatic, hn, hge, if_false]

/-- Pushing a centre delta by its own penetration depth, in the direction of
its sign, lands exactly on the sum of the half extents. -/
theorem abs_push_eq (delta h : α) (hp : 0 ≤ h - |delta|) :
    |delta + pushSign delta * (h - |delta|)| = h := by
  have hh : 0 ≤ h := le_trans (abs_nonneg delta) (sub_nonneg.mp hp)
  unfold pushSign
  by_cases hd : delta < 0
  · rw [if_pos hd, abs_of_neg hd]
    have : delta + -1 * (h - -delta) = -h := by ring
    rw [this, abs_neg, abs_of_nonneg hh]
  · rw [if_neg hd, abs_of_nonneg (not_lt.mp hd)]
    have : delta + 1 * (h - delta) = h := by ring
    rw [this, abs_of_nonneg hh]

/-- The push sign is a unit. -/
theorem abs_pushSign (delta : α) : |pushSign delta| = 1 := by
  unfold pushSign
  by_cases hd : delta < 0
  · rw [if_pos hd]; simp
  · rw [if_neg hd]; simp

end CollisionLemmas


/-! ## Claims on `Intersects` and `ResolveStatic` -/

section CollisionClaims

variable {α : Type} [LinearOrderedField α]

/-- C1 (as stated, refuted): in scenario 2 of the spec the player box overlaps
the rock, and after `ResolveStatic` re-testing the rock against the corrected
player box still reports an overlap; the centre distance on the corrected axis
(z) equals the sum of the half extents, it does not exceed it. -/
theorem C1_retest_still_overlaps_scenario2 :
    Intersects scenario2.dynBox scenario2.statBox = true ∧
    Intersects scenario2.statBox (ResolveStatic scenario2).dynBox ≠ false ∧
    ¬ (|scenario2.statBox.center.y - (ResolveStatic scenario2).dynBox.center.y|
        > scenario2.statBox.halfExt.y + (ResolveStatic scenario2).dynBox.halfExt.y) := by
  have hx : (0 : ℚ) ≤ penX scenario2.statBox scenario2.dynBox := by
    norm_num [penX, scenario2, rock0, playerOnRock0]
  have hz : (0 : ℚ) ≤ penZ scenario2.statBox scenario2.dynBox := by
    norm_num [penZ, scenario2, rock0, playerOnRock0]
  have hge : ¬ penX scenario2.statBox scenario2.dynBox
      < penZ scenario2.statBox scenario2.dynBox := by
    norm_num [penX, penZ, scenario2, rock0, playerOnRock0]
  have hr := ResolveStatic_shallow_z scenario2 hx hz hge
  have hc : (ResolveStatic scenario2).dynBox.center.y = -2 / 5 := by
    rw [hr]
    norm_num [penZ, pushSign, scenario2, rock0, playerOnRock0]
  have hcx : (ResolveStatic scenario2).dynBox.center.x = 3 := by
    rw [hr]; rfl
  have hh : (ResolveStatic scenario2).dynBox.halfExt = ⟨1 / 2, 2 / 5⟩ := by
    rw [hr]; rfl
  have habs : |(-2 : ℚ) - -2 / 5| = 8 / 5 := by
    rw [show (-2 : ℚ) - -2 / 5 = -(8 / 5) by norm_num, abs_neg]
    exact abs_of_nonneg (by norm_num)
  refine ⟨?_, ?_, ?_⟩
  · rw [Intersects_eq_true_iff]
    norm_num [scenario2, rock0, playerOnRock0]
  · have : Intersects scenario2.statBox (ResolveStatic scenario2).dynBox = true := by
      rw [Intersects_eq_true_iff, hc, hcx, hh]
      simp only [scenario2, rock0]
      rw [habs]
      norm_num
    rw [this]
    exact Bool.noConfusion
  · rw [hc, hh]
    simp only [scenario2, rock0]
    rw [habs]
    norm_num

/-- C2: when both penetration depths are non-negative, `ResolveStatic` moves
the position and the box centre along one axis only: x when `px < pz`,
otherwise z (ties go to z), by the penetration on that axis times the sign of
the centre delta on that axis (`+1` for a zero delta); the size of the move is
`min px pz`, and the move never points toward the static centre. -/
theorem C2_push_along_shallow_axis (m : ResolveArgs α)
    (hx : 0 ≤ penX m.statBox m.dynBox) (hz : 0 ≤ penZ m.statBox m.dynBox) :
    (penX m.statBox m.dynBox < penZ m.statBox m.dynBox →
      (ResolveStatic m).playerPos =
        ⟨m.playerPos.x
          + pushSign (m.dynBox.center.x - m.statBox.center.x) * penX m.statBox m.dynBox,
         m.playerPos.y, m.playerPos.z⟩ ∧
      (ResolveStatic m).dynBox.center =
        ⟨m.dynBox.center.x
          + pushSign (m.dynBox.center.x - m.statBox.center.x) * penX m.statBox m.dynBox,
         m.dynBox.center.y⟩) ∧
    (¬ penX m.statBox m.dynBox < penZ m.statBox m.dynBox →
      (ResolveStatic m).playerPos =
        ⟨m.playerPos.x, m.playerPos.y,
         m.playerPos.z
          + pushSign (m.dynBox.center.y - m.statBox.center.y) * penZ m.statBox m.dynBox⟩ ∧
      (ResolveStatic m).dynBox.center =
        ⟨m.dynBox.center.x,
         m.dynBox.center.y
          + pushSign (m.dynBox.center.y - m.statBox.center.y) * penZ m.statBox m.dynBox⟩) ∧
    |(ResolveStatic m).playerPos.x - m.playerPos.x|
      + |(ResolveStatic m).playerPos.z - m.playerPos.z|
      = min (penX m.statBox m.dynBox) (penZ m.statBox m.dynBox) ∧
    0 ≤ ((ResolveStatic m).dynBox.center.x - m.dynBox.center.x)
          * (m.dynBox.center.x - m.statBox.center.x) ∧
    0 ≤ ((ResolveStatic m).dynBox.center.y - m.dynBox.center.y)
          * (m.dynBox.center.y - m.statBox.center.y) := by
  have sgn : ∀ d p : α, 0 ≤ p → 0 ≤ (pushSign d * p) * d := by
    intro d p hp
    unfold pushSign
    by_cases hd : d < 0
    · rw [if_pos hd]
      have : (-1 * p) * d = p * (-d) := by ring
      rw [this]
      exact mul_nonneg hp (le_of_lt (neg_pos.mpr hd))
    · rw [if_neg hd]
      have : (1 * p) * d = p * d := by ring
      rw [this]
      exact mul_nonneg hp (not_lt.mp hd)
  have mag : ∀ d p : α, 0 ≤ p → |pushSign d * p| = p := by
    intro d p hp
    rw [abs_mul, abs_pushSign, one_mul, abs_of_nonneg hp]
  by_cases hlt : penX m.statBox m.dynBox < penZ m.statBox m.dynBox
  · have hr := ResolveStatic_shallow_x m hx hz hlt
    refine ⟨fun _ => ?_, fun hn => absurd hlt hn, ?_, ?_, ?_⟩
    · rw [hr]; exact ⟨rfl, rfl⟩
    · rw [hr, min_eq_left (le_of_lt hlt)]
      simp only [add_sub_cancel_left, sub_self, abs_zero, add_zero]
      exact mag _ _ hx
    · rw [hr]
      simp only [add_sub_cancel_left]
      exact sgn _ _ hx
    · rw [hr]
      simp only [sub_self, zero_mul, le_refl]
  · have hr := ResolveStatic_shallow_z m hx hz hlt
    refine ⟨fun hn => absurd hn hlt, fun _ => ?_, ?_, ?_, ?_⟩
    · rw [hr]; exact ⟨rfl, rfl⟩
    · rw [hr, min_eq_right (not_lt.mp hlt)]
      simp only [add_sub_cancel_left, sub_self, abs_zero, zero_add]
      exact mag _ _ hz
    · rw [hr]
      simp only [sub_self, zero_mul, le_refl]
    · rw [hr]
      simp only [add_sub_cancel_left]
      exact sgn _ _ hz

/-- Witness for C2: scenario 2 of the spec, where `px = 1.7` and `pz = 1.6`; the
player is moved along z by 1.6, from z = -2 to z = -0.4. -/
theorem C2_push_along_shallow_axis_witness :
    (0 : ℚ) ≤ penX scenario2.statBox scenario2.dynBox ∧
    (0 : ℚ) ≤ penZ scenario2.statBox scenario2.dynBox ∧
    |(ResolveStatic scenario2).playerPos.x - scenario2.playerPos.x|
      + |(ResolveStatic scenario2).playerPos.z - scenario2.playerPos.z|
      = min (penX scenario2.statBox scenario2.dynBox) (penZ scenario2.statBox scenario2.dynBox) :=
  have hx : (0 : ℚ) ≤ penX scenario2.statBox scenario2.dynBox := by
    norm_num [penX, scenario2, rock0, playerOnRock0]
  have hz : (0 : ℚ) ≤ penZ scenario2.statBox scenario2.dynBox := by
    norm_num [penZ, scenario2, rock0, playerOnRock0]
  ⟨hx, hz, (C2_push_along_shallow_axis scenario2 hx hz).2.2.1⟩

/-- C3: `Intersects a b` is true exactly when, on both axes, the absolute centre
delta is at most the sum of the half extents; boxes whose centre distance on an
axis equals that sum (touching) therefore count as overlapping. -/
theorem C3_intersects_iff_within_half_extents (a b : AABB2D α) :
    (Intersects a b = true ↔
      |a.center.x - b.center.x| ≤ a.halfExt.x + b.halfExt.x ∧
      |a.center.y - b.center.y| ≤ a.halfExt.y + b.halfExt.y) ∧
    (|a.center.x - b.center.x| = a.halfExt.x + b.halfExt.x →
      |a.center.y - b.center.y| ≤ a.halfExt.y + b.halfExt.y →
      Intersects a b = true) ∧
    (|a.center.y - b.center.y| = a.halfExt.y + b.halfExt.y →
      |a.center.x - b.center.x| ≤ a.halfExt.x + b.halfExt.x →
      Intersects a b = true) :=
  ⟨Intersects_eq_true_iff a b,
   fun h1 h2 => (Intersects_eq_true_iff a b).mpr ⟨le_of_eq h1, h2⟩,
   fun h1 h2 => (Intersects_eq_true_iff a b).mpr ⟨h2, le_of_eq h1⟩⟩

/-- C4: `Intersects` is symmetric in its two arguments. -/
theorem C4_intersects_symmetric (a b : AABB2D α) :
    Intersects a b = Intersects b a := by
  have h : Intersects a b = true ↔ Intersects b a = true := by
    rw [Intersects_eq_true_iff, Intersects_eq_true_iff,
      abs_sub_comm a.center.x, abs_sub_comm a.center.y,
      add_comm a.halfExt.x, add_comm a.halfExt.y]
  cases hab : Intersects a b <;> cases hba : Intersects b a <;> simp_all

/-- C5: `ResolveStatic` adds the same delta to the world position and to the
box centre, on both horizontal axes, in every branch; so when the box centre
equals the position (x, z) before the call, it does after the call. -/
theorem C5_position_and_centre_move_together (m : ResolveArgs α) :
    (m.dynBox.center = ⟨m.playerPos.x, m.playerPos.z⟩ →
      (ResolveStatic m).dynBox.center
        = ⟨(ResolveStatic m).playerPos.x, (ResolveStatic m).playerPos.z⟩) ∧
    (ResolveStatic m).dynBox.center.x - m.dynBox.center.x
      = (ResolveStatic m).playerPos.x - m.playerPos.x ∧
    (ResolveStatic m).dynBox.center.y - m.dynBox.center.y
      = (ResolveStatic m).playerPos.z - m.playerPos.z := by
  by_cases hs : penX m.statBox m.dynBox < 0 ∨ penZ m.statBox m.dynBox < 0
  · rw [ResolveStatic_separated m hs]
    exact ⟨fun h => h, by simp, by simp⟩
  · have hx : 0 ≤ penX m.statBox m.dynBox := not_lt.mp (fun c => hs (Or.inl c))
    have hz : 0 ≤ penZ m.statBox m.dynBox := not_lt.mp (fun c => hs (Or.inr c))
    by_cases hlt : penX m.statBox m.dynBox < penZ m.statBox m.dynBox
    · rw [ResolveStatic_shallow_x m hx hz hlt]
      refine ⟨fun h => ?_, ?_, ?_⟩
      · have hcx : m.dynBox.center.x = m.playerPos.x := by rw [h]
        have hcy : m.dynBox.center.y = m.playerPos.z := by rw [h]
        simp only [hcx, hcy]
      · simp only [add_sub_cancel_left]
      · simp only [sub_self]
    · rw [ResolveStatic_shallow_z m hx hz hlt]
      refine ⟨fun h => ?_, ?_, ?_⟩
      · have hcx : m.dynBox.center.x = m.playerPos.x := by rw [h]
        have hcy : m.dynBox.center.y = m.playerPos.z := by rw [h]
        simp only [hcx, hcy]
      · simp only [sub_self]
      · simp only [add_sub_cancel_left]

/-- Witness for C5: in scenario 2 the player box is centred on the player
position before the call, and still is after it. -/
theorem C5_position_and_centre_move_together_witness :
    scenario2.dynBox.center = ⟨scenario2.playerPos.x, scenario2.playerPos.z⟩ ∧
    (ResolveStatic scenario2).dynBox.center
      = ⟨(ResolveStatic scenario2).playerPos.x, (ResolveStatic scenario2).playerPos.z⟩ :=
  ⟨rfl, (C5_position_and_centre_move_together scenario2).1 rfl⟩

/-- C6: when either penetration depth is negative, `ResolveStatic` returns the
dynamic box and the world position (and the static box) unchanged. -/
theorem C6_negative_penetration_is_noop (m : ResolveArgs α)
    (h : penX m.statBox m.dynBox < 0 ∨ penZ m.statBox m.dynBox < 0) :
    (ResolveStatic m).dynBox = m.dynBox ∧
    (ResolveStatic m).playerPos = m.playerPos ∧
    ResolveStatic m = m := by
  rw [ResolveStatic_separated m h]
  exact ⟨rfl, rfl, rfl⟩

/-- Witness for C6: the player at the origin is separated from the first rock
on both axes (`px = -1.3`, `pz = -0.4`), and the call changes nothing. -/
theorem C6_negative_penetration_is_noop_witness :
    (penX farFromRock0.statBox farFromRock0.dynBox < 0
      ∨ penZ farFromRock0.statBox farFromRock0.dynBox < 0) ∧
    ResolveStatic farFromRock0 = farFromRock0 :=
  have h : penX farFromRock0.statBox farFromRock0.dynBox < 0
      ∨ penZ farFromRock0.statBox farFromRock0.dynBox < 0 := by
    left
    have e : |(0 : ℚ) - 3| = 3 := by
      rw [show (0 : ℚ) - 3 = -3 by norm_num, abs_neg]; exact abs_of_nonneg (by norm_num)
    simp only [penX, farFromRock0, rock0]
    rw [e]
    norm_num
  ⟨h, (C6_negative_penetration_is_noop farFromRock0 h).2.2⟩

/-- C7: for every input, `ResolveStatic` leaves the static box, the dynamic
box half extents and the vertical coordinate of the position unchanged, and
leaves the position and box-centre coordinate of the axis it does not correct
unchanged: z when `px < pz`, x otherwise. -/
theorem C7_resolve_frame (m : ResolveArgs α) :
    (ResolveStatic m).statBox = m.statBox ∧
    (ResolveStatic m).dynBox.halfExt = m.dynBox.halfExt ∧
    (ResolveStatic m).playerPos.y = m.playerPos.y ∧
    (penX m.statBox m.dynBox < penZ m.statBox m.dynBox →
      (ResolveStatic m).playerPos.z = m.playerPos.z ∧
      (ResolveStatic m).dynBox.center.y = m.dynBox.center.y) ∧
    (¬ penX m.statBox m.dynBox < penZ m.statBox m.dynBox →
      (ResolveStatic m).playerPos.x = m.playerPos.x ∧
      (ResolveStatic m).dynBox.center.x = m.dynBox.center.x) := by
  by_cases hs : penX m.statBox m.dynBox < 0 ∨ penZ m.statBox m.dynBox < 0
  · rw [ResolveStatic_separated m hs]
    exact ⟨rfl, rfl, rfl, fun _ => ⟨rfl, rfl⟩, fun _ => ⟨rfl, rfl⟩⟩
  · have hx : 0 ≤ penX m.statBox m.dynBox := not_lt.mp (fun c => hs (Or.inl c))
    have hz : 0 ≤ penZ m.statBox m.dynBox := not_lt.mp (fun c => hs (Or.inr c))
    by_cases hlt : penX m.statBox m.dynBox < penZ m.statBox m.dynBox
    · rw [ResolveStatic_shallow_x m hx hz hlt]
      exact ⟨rfl, rfl, rfl, fun _ => ⟨rfl, rfl⟩, fun hn => absurd hlt hn⟩
    · rw [ResolveStatic_shallow_z m hx hz hlt]
      exact ⟨rfl, rfl, rfl, fun hn => absurd hn hlt, fun _ => ⟨rfl, rfl⟩⟩

end CollisionClaims


/-! ## Helper lemmas for the movement code -/

section MovementLemmas

variable {α : Type} [LinearOrderedField α]

/-- The real square root meets `SqrtSpec`. -/
theorem realLibm_sqrtSpec : SqrtSpec realLibm :=
  fun x hx => ⟨Real.sqrt_nonneg x, Real.mul_self_sqrt hx⟩

/-- Under `SqrtSpec`, the square root of zero is zero. -/
theorem SqrtSpec.sqrt_zero {L : Libm α} (h : SqrtSpec L) : L.sqrt 0 = 0 := by
  have := (h 0 le_rfl).2
  exact mul_self_eq_zero.mp this

/-- Under `SqrtSpec`, the square root of a positive number is positive. -/
theorem SqrtSpec.sqrt_pos {L : Libm α} (h : SqrtSpec L) {x : α} (hx : 0 < x) :
    0 < L.sqrt x := by
  obtain ⟨h0, h1⟩ := h x (le_of_lt hx)
  rcases eq_or_lt_of_le h0 with h2 | h2
  · rw [← h2, zero_mul] at h1
    exact absurd h1 (ne_of_lt hx)
  · exact h2

/-- Under `SqrtSpec`, the square root of the square of a non-negative number is
that number. -/
theorem SqrtSpec.sqrt_mul_self {L : Libm α} (h : SqrtSpec L) {a : α} (ha : 0 ≤ a) :
    L.sqrt (a * a) = a := by
  obtain ⟨h0, h1⟩ := h (a * a) (mul_self_nonneg a)
  exact (mul_self_inj h0 ha).mp h1

/-- The key direction never has a vertical component. -/
theorem inputDir_y (k : Keys) : (inputDir k : Vec3 α).y = 0 := by
  obtain ⟨w, s, a, d, e⟩ := k
  cases w <;> cases s <;> cases a <;> cases d <;> rfl

/-- When the key direction is zero, `processInput` keeps position and yaw. -/
theorem processInput_of_dir_zero {L : Libm α} (hL : SqrtSpec L) (k : Keys)
    (deltaTime : α) (shouldClose : Bool) (playerPos : Vec3 α)
    (playerSpeed playerYawDeg : α) (h : (inputDir k : Vec3 α) = ⟨0, 0, 0⟩) :
    (processInput L k deltaTime shouldClose playerPos playerSpeed playerYawDeg).playerPos
      = playerPos ∧
    (processInput L k deltaTime shouldClose playerPos playerSpeed playerYawDeg).playerYawDeg
      = playerYawDeg := by
  have hlen : ¬ (Vec3.length L (inputDir k : Vec3 α) > 0) := by
    rw [h]
    simp only [Vec3.length, Vec3.dot, mul_zero, add_zero, hL.sqrt_zero, gt_iff_lt,
      lt_self_iff_false, not_false_eq_true]
  simp only [processInput, hlen, if_false, and_self]

/-- A non-zero key direction has a positive squared length. -/
theorem inputDir_dot_pos (k : Keys) (h : (inputDir k : Vec3 α) ≠ ⟨0, 0, 0⟩) :
    0 < Vec3.dot (inputDir k : Vec3 α) (inputDir k) := by
  have hy := inputDir_y (α := α) k
  have hne : (inputDir k : Vec3 α).x ≠ 0 ∨ (inputDir k : Vec3 α).z ≠ 0 := by
    by_contra hc
    push_neg at hc
    apply h
    have e : (inputDir k : Vec3 α)
        = ⟨(inputDir k : Vec3 α).x, (inputDir k : Vec3 α).y, (inputDir k : Vec3 α).z⟩ := rfl
    rw [e, hc.1, hc.2, hy]
  unfold Vec3.dot
  rw [hy, mul_zero, add_zero]
  rcases hne with hx | hz
  · exact add_pos_of_pos_of_nonneg (mul_self_pos.mpr hx) (mul_self_nonneg _)
  · exact add_pos_of_nonneg_of_pos (mul_self_nonneg _) (mul_self_pos.mpr hz)

/-- When the key direction is non-zero, `processInput` takes the moving branch. -/
theorem processInput_of_dir_ne_zero {L : Libm α} (hL : SqrtSpec L) (k : Keys)
    (deltaTime : α) (shouldClose : Bool) (playerPos : Vec3 α)
    (playerSpeed playerYawDeg : α) (h : (inputDir k : Vec3 α) ≠ ⟨0, 0, 0⟩) :
    (processInput L k deltaTime shouldClose playerPos playerSpeed playerYawDeg).playerPos
      = Vec3.add playerPos
          (Vec3.scale (Vec3.scale
            ⟨(Vec3.normalize L (inputDir k)).x, 0, (Vec3.normalize L (inputDir k)).z⟩
            playerSpeed) deltaTime) ∧
    (processInput L k deltaTime shouldClose playerPos playerSpeed playerYawDeg).playerYawDeg
      = degrees L (L.atan2 (Vec3.normalize L (inputDir k)).x
          (-(Vec3.normalize L (inputDir k)).z)) := by
  have hlen : Vec3.length L (inputDir k : Vec3 α) > 0 :=
    hL.sqrt_pos (inputDir_dot_pos k h)
  simp only [processInput, hlen, if_true, and_self]

end MovementLemmas

/-! ## Claims on `processInput` -/

section MovementClaims

variable {α : Type} [LinearOrderedField α]

/-- C8: with none of the four movement keys pressed, `processInput` returns the
position and the yaw it was given, whatever the speed and the elapsed time. -/
theorem C8_no_keys_no_motion {L : Libm α} (hL : SqrtSpec L) (k : Keys)
    (hW : k.keyW = false) (hS : k.keyS = false) (hA : k.keyA = false) (hD : k.keyD = false)
    (deltaTime : α) (shouldClose : Bool) (playerPos : Vec3 α)
    (playerSpeed playerYawDeg : α) :
    (processInput L k deltaTime shouldClose playerPos playerSpeed playerYawDeg).playerPos
      = playerPos ∧
    (processInput L k deltaTime shouldClose playerPos playerSpeed playerYawDeg).playerYawDeg
      = playerYawDeg := by
  apply processInput_of_dir_zero hL
  simp only [inputDir, hW, hS, hA, hD, Bool.false_eq_true, if_false]

/-- Witness for C8: no key pressed, speed 3, half a second elapsed. -/
theorem C8_no_keys_no_motion_witness :
    SqrtSpec realLibm ∧
    (processInput realLibm noKeys (1 / 2) false ⟨1, 0, 2⟩ 3 90).playerPos = ⟨1, 0, 2⟩ ∧
    (processInput realLibm noKeys (1 / 2) false ⟨1, 0, 2⟩ 3 90).playerYawDeg = 90 :=
  ⟨realLibm_sqrtSpec,
   C8_no_keys_no_motion realLibm_sqrtSpec noKeys rfl rfl rfl rfl (1 / 2) false ⟨1, 0, 2⟩ 3 90⟩

/-- C9: when forward and back are both pressed and left and right agree (or
left and right are both pressed and forward and back agree), the key direction
is the zero vector, its length is zero, and `processInput` returns the position
and the yaw it was given. -/
theorem C9_opposite_keys_cancel {L : Libm α} (hL : SqrtSpec L) (k : Keys)
    (h : (k.keyW = true ∧ k.keyS = true ∧ k.keyA = k.keyD) ∨
         (k.keyA = true ∧ k.keyD = true ∧ k.keyW = k.keyS))
    (deltaTime : α) (shouldClose : Bool) (playerPos : Vec3 α)
    (playerSpeed playerYawDeg : α) :
    (inputDir k : Vec3 α) = ⟨0, 0, 0⟩ ∧
    Vec3.length L (inputDir k : Vec3 α) = 0 ∧
    (processInput L k deltaTime shouldClose playerPos playerSpeed playerYawDeg).playerPos
      = playerPos ∧
    (processInput L k deltaTime shouldClose playerPos playerSpeed playerYawDeg).playerYawDeg
      = playerYawDeg := by
  have hd : (inputDir k : Vec3 α) = ⟨0, 0, 0⟩ := by
    obtain ⟨w, s, a, d, e⟩ := k
    rcases h with ⟨h1, h2, h3⟩ | ⟨h1, h2, h3⟩
    · simp only at h1 h2 h3
      subst h1 h2 h3
      cases a <;> simp [inputDir]
    · simp only at h1 h2 h3
      subst h1 h2 h3
      cases w <;> simp [inputDir]
  refine ⟨hd, ?_, processInput_of_dir_zero hL k deltaTime shouldClose playerPos
    playerSpeed playerYawDeg hd⟩
  rw [hd]
  simp only [Vec3.length, Vec3.dot, mul_zero, add_zero, hL.sqrt_zero]

/-- Witness for C9: all four movement keys pressed at once. -/
theorem C9_opposite_keys_cancel_witness :
    SqrtSpec realLibm ∧
    ((keysAll.keyW = true ∧ keysAll.keyS = true ∧ keysAll.keyA = keysAll.keyD) ∨
      (keysAll.keyA = true ∧ keysAll.keyD = true ∧ keysAll.keyW = keysAll.keyS)) ∧
    Vec3.length realLibm (inputDir keysAll : Vec3 ℝ) = 0 ∧
    (processInput realLibm keysAll (1 / 2) false ⟨1, 0, 2⟩ 3 90).playerPos = ⟨1, 0, 2⟩ ∧
    (processInput realLibm keysAll (1 / 2) false ⟨1, 0, 2⟩ 3 90).playerYawDeg = 90 :=
  ⟨realLibm_sqrtSpec, Or.inl ⟨rfl, rfl, rfl⟩,
   (C9_opposite_keys_cancel realLibm_sqrtSpec keysAll (Or.inl ⟨rfl, rfl, rfl⟩)
      (1 / 2) false ⟨1, 0, 2⟩ 3 90).2⟩

/-- C10: when the key direction is non-zero and speed and elapsed time are
non-negative, `processInput` keeps the vertical coordinate, and the
displacement of the position has no vertical component and has length exactly
speed times elapsed time. -/
theorem C10_displacement_length {L : Libm α} (hL : SqrtSpec L) (k : Keys)
    (deltaTime : α) (shouldClose : Bool) (playerPos : Vec3 α)
    (playerSpeed playerYawDeg : α)
    (hdir : (inputDir k : Vec3 α) ≠ ⟨0, 0, 0⟩)
    (hspeed : 0 ≤ playerSpeed) (hdt : 0 ≤ deltaTime) :
    (processInput L k deltaTime shouldClose playerPos playerSpeed playerYawDeg).playerPos.y
      = playerPos.y ∧
    (Vec3.sub
      (processInput L k deltaTime shouldClose playerPos playerSpeed playerYawDeg).playerPos
      playerPos).y = 0 ∧
    Vec3.length L (Vec3.sub
      (processInput L k deltaTime shouldClose playerPos playerSpeed playerYawDeg).playerPos
      playerPos) = playerSpeed * deltaTime := by
  have hr := (processInput_of_dir_ne_zero hL k deltaTime shouldClose playerPos
    playerSpeed playerYawDeg hdir).1
  have hn := inputDir_dot_pos k hdir
  have hs := hL.sqrt_pos hn
  have hss := (hL _ (le_of_lt hn)).2
  have hy := inputDir_y (α := α) k
  rw [hr]
  refine ⟨?_, ?_, ?_⟩
  · simp only [Vec3.add, Vec3.scale, zero_mul, add_zero]
  · simp only [Vec3.sub, Vec3.add, Vec3.scale, zero_mul, add_zero, sub_self]
  · have hsq : Vec3.dot
        (Vec3.sub (Vec3.add playerPos (Vec3.scale (Vec3.scale
          ⟨(Vec3.normalize L (inputDir k)).x, 0, (Vec3.normalize L (inputDir k)).z⟩
          playerSpeed) deltaTime)) playerPos)
        (Vec3.sub (Vec3.add playerPos (Vec3.scale (Vec3.scale
          ⟨(Vec3.normalize L (inputDir k)).x, 0, (Vec3.normalize L (inputDir k)).z⟩
          playerSpeed) deltaTime)) playerPos)
        = (playerSpeed * deltaTime) * (playerSpeed * deltaTime) := by
      simp only [Vec3.normalize]
      generalize L.sqrt (Vec3.dot (inputDir k : Vec3 α) (inputDir k)) = s at hs hss
      have hne : s ≠ 0 := ne_of_gt hs
      simp only [Vec3.dot, hy, mul_zero, add_zero] at hss
      simp only [Vec3.sub, Vec3.add, Vec3.scale, Vec3.dot, zero_mul,
        add_sub_cancel_left, mul_zero, add_zero]
      field_simp
      linear_combination (-(playerSpeed * deltaTime) ^ 2) * hss
    unfold Vec3.length
    rw [hsq]
    exact hL.sqrt_mul_self (mul_nonneg hspeed hdt)

/-- Witness for C10: forward and right pressed together (a diagonal), speed 3,
half a second elapsed; the displacement has length 3/2. -/
theorem C10_displacement_length_witness :
    SqrtSpec realLibm ∧
    (inputDir keysWD : Vec3 ℝ) ≠ ⟨0, 0, 0⟩ ∧
    Vec3.length realLibm (Vec3.sub
      (processInput realLibm keysWD (1 / 2) false ⟨1, 0, 2⟩ 3 90).playerPos ⟨1, 0, 2⟩)
      = 3 * (1 / 2) :=
  have hdir : (inputDir keysWD : Vec3 ℝ) ≠ ⟨0, 0, 0⟩ := by
    simp [inputDir, keysWD]
  ⟨realLibm_sqrtSpec, hdir,
   (C10_displacement_length realLibm_sqrtSpec keysWD (1 / 2) false ⟨1, 0, 2⟩ 3 90 hdir
      (by norm_num) (by norm_num)).2.2⟩

end MovementClaims

/-! ## Helper lemmas for repeated resolution -/

section ResolveLemmas

variable {α : Type} [LinearOrderedField α]

/-- With zero penetration on x, chosen as the shallow axis, nothing moves. -/
theorem ResolveStatic_fixed_x (m : ResolveArgs α)
    (hx : penX m.statBox m.dynBox = 0) (hlt : penX m.statBox m.dynBox < penZ m.statBox m.dynBox) :
    ResolveStatic m = m := by
  have hz : 0 ≤ penZ m.statBox m.dynBox := by rw [hx] at hlt; exact le_of_lt hlt
  rw [ResolveStatic_shallow_x m (le_of_eq hx.symm) hz hlt, hx, mul_zero, add_zero, add_zero]

/-- With zero penetration on z, chosen as the shallow axis, nothing moves. -/
theorem ResolveStatic_fixed_z (m : ResolveArgs α)
    (hz : penZ m.statBox m.dynBox = 0) (hx : 0 ≤ penX m.statBox m.dynBox) :
    ResolveStatic m = m := by
  have hge : ¬ penX m.statBox m.dynBox < penZ m.statBox m.dynBox := by
    rw [hz]; exact not_lt.mpr hx
  rw [ResolveStatic_shallow_z m hx (le_of_eq hz.symm) hge, hz, mul_zero, add_zero, add_zero]

/-- A second `ResolveStatic` on the result of the first changes nothing. -/
theorem ResolveStatic_idem (m : ResolveArgs α) :
    ResolveStatic (ResolveStatic m) = ResolveStatic m := by
  have ex : ∀ a b c : α, a + b - c = (a - c) + b := fun a b c => by ring
  by_cases hs : penX m.statBox m.dynBox < 0 ∨ penZ m.statBox m.dynBox < 0
  · rw [ResolveStatic_separated m hs, ResolveStatic_separated m hs]
  · have hx : 0 ≤ penX m.statBox m.dynBox := not_lt.mp (fun c => hs (Or.inl c))
    have hz : 0 ≤ penZ m.statBox m.dynBox := not_lt.mp (fun c => hs (Or.inr c))
    by_cases hlt : penX m.statBox m.dynBox < penZ m.statBox m.dynBox
    · have hr := ResolveStatic_shallow_x m hx hz hlt
      have key : |m.dynBox.center.x
            + pushSign (m.dynBox.center.x - m.statBox.center.x) * penX m.statBox m.dynBox
            - m.statBox.center.x| = m.dynBox.halfExt.x + m.statBox.halfExt.x := by
        rw [ex]
        exact abs_push_eq _ _ hx
      have hpx : penX (ResolveStatic m).statBox (ResolveStatic m).dynBox = 0 := by
        rw [hr]
        show (m.dynBox.halfExt.x + m.statBox.halfExt.x)
          - |m.dynBox.center.x
              + pushSign (m.dynBox.center.x - m.statBox.center.x) * penX m.statBox m.dynBox
              - m.statBox.center.x| = 0
        rw [key, sub_self]
      have hpz : penZ (ResolveStatic m).statBox (ResolveStatic m).dynBox
          = penZ m.statBox m.dynBox := by
        rw [hr]; rfl
      exact ResolveStatic_fixed_x _ hpx (by rw [hpx, hpz]; exact lt_of_le_of_lt hx hlt)
    · have hr := ResolveStatic_shallow_z m hx hz hlt
      have key : |m.dynBox.center.y
            + pushSign (m.dynBox.center.y - m.statBox.center.y) * penZ m.statBox m.dynBox
            - m.statBox.center.y| = m.dynBox.halfExt.y + m.statBox.halfExt.y := by
        rw [ex]
        exact abs_push_eq _ _ hz
      have hpz : penZ (ResolveStatic m).statBox (ResolveStatic m).dynBox = 0 := by
        rw [hr]
        show (m.dynBox.halfExt.y + m.statBox.halfExt.y)
          - |m.dynBox.center.y
              + pushSign (m.dynBox.center.y - m.statBox.center.y) * penZ m.statBox m.dynBox
              - m.statBox.center.y| = 0
        rw [key, sub_self]
      have hpx : penX (ResolveStatic m).statBox (ResolveStatic m).dynBox
          = penX m.statBox m.dynBox := by
        rw [hr]; rfl
      exact ResolveStatic_fixed_z _ hpz (by rw [hpx]; exact hx)

end ResolveLemmas

/-! ## Helper lemmas for the patrol -/

section PatrolLemmas

variable {α : Type} [LinearOrderedField α]

/-- The patrol over a non-empty sequence: first step, then the rest. -/
theorem patrolSteps_cons (a v : α) (s : α × α) (dt : α) (dts : List α) :
    patrolSteps a v s (dt :: dts) = patrolSteps a v (patrolStep a v dt s) dts := rfl

/-- Moving right below the upper bound: the direction stays `+1`. -/
theorem patrolStep_forward (x dt : α) (h : x + dt ≤ -3) :
    patrolStep 3 1 dt (x, 1) = (x + dt, 1) := by
  have h1 : ¬ (x + dt > -6 + 3) := by
    intro hc
    have : (-6 : α) + 3 = -3 := by norm_num
    rw [this] at hc
    exact absurd hc (not_lt.mpr h)
  simp only [patrolStep, one_mul, mul_one, h1, if_false, ite_self]

/-- Moving left above the lower bound: the direction stays `-1`. -/
theorem patrolStep_backward (x dt : α) (h : -9 ≤ x - dt) :
    patrolStep 3 1 dt (x, -1) = (x - dt, -1) := by
  have e : x + -1 * 1 * dt = x - dt := by ring
  have h2 : ¬ (x - dt < -6 - 3) := by
    intro hc
    have : (-6 : α) - 3 = -9 := by norm_num
    rw [this] at hc
    exact absurd hc (not_lt.mpr h)
  simp only [patrolStep, e, h2, if_false, ite_self]

/-- Crossing the upper bound: the direction becomes `-1`. -/
theorem patrolStep_cross (x dt : α) (h : -3 < x + dt) :
    patrolStep 3 1 dt (x, 1) = (x + dt, -1) := by
  have h1 : x + dt > -6 + 3 := by
    have : (-6 : α) + 3 = -3 := by norm_num
    rw [this]; exact h
  have h2 : ¬ (x + dt < -6 - 3) := by
    intro hc
    have : (-6 : α) - 3 = -9 := by norm_num
    rw [this] at hc
    linarith
  simp only [patrolStep, one_mul, mul_one, h1, h2, if_true, if_false]

/-- Frames that stay below the upper bound add up. -/
theorem patrolSteps_forward (dts : List α) :
    ∀ x : α, (∀ dt ∈ dts, 0 ≤ dt) → x + dts.sum ≤ -3 →
      patrolSteps 3 1 (x, 1) dts = (x + dts.sum, 1) := by
  induction dts with
  | nil => intro x _ _; simp [patrolSteps]
  | cons dt rest ih =>
    intro x hpos hsum
    have hdt : 0 ≤ dt := hpos dt (List.mem_cons_self dt rest)
    have hrest : ∀ d ∈ rest, 0 ≤ d := fun d hd => hpos d (List.mem_cons_of_mem dt hd)
    have hrs : 0 ≤ rest.sum := List.sum_nonneg hrest
    rw [List.sum_cons] at hsum
    rw [patrolSteps_cons, patrolStep_forward x dt (by linarith), ih (x + dt) hrest (by linarith),
      List.sum_cons, add_assoc]

/-- Frames that stay above the lower bound keep the direction `-1`. -/
theorem patrolSteps_backward (dts : List α) :
    ∀ x : α, (∀ dt ∈ dts, 0 ≤ dt) → -9 ≤ x - dts.sum →
      patrolSteps 3 1 (x, -1) dts = (x - dts.sum, -1) := by
  induction dts with
  | nil => intro x _ _; simp [patrolSteps]
  | cons dt rest ih =>
    intro x hpos hsum
    have hdt : 0 ≤ dt := hpos dt (List.mem_cons_self dt rest)
    have hrest : ∀ d ∈ rest, 0 ≤ d := fun d hd => hpos d (List.mem_cons_of_mem dt hd)
    have hrs : 0 ≤ rest.sum := List.sum_nonneg hrest
    rw [List.sum_cons] at hsum
    rw [patrolSteps_cons, patrolStep_backward x dt (by linarith),
      ih (x - dt) hrest (by linarith), List.sum_cons, sub_sub]

/-- Frames that carry the enemy across the upper bound, and no further than
four seconds in all, end with the direction `-1`. -/
theorem patrolSteps_turn (dts : List α) :
    ∀ x : α, (∀ dt ∈ dts, 0 ≤ dt) → x ≤ -3 → -3 < x + dts.sum → dts.sum ≤ 4 →
      (patrolSteps 3 1 (x, 1) dts).2 = -1 := by
  induction dts with
  | nil =>
    intro x _ hx hsum _
    rw [List.sum_nil, add_zero] at hsum
    exact absurd hsum (not_lt.mpr hx)
  | cons dt rest ih =>
    intro x hpos hx hsum h4
    have hdt : 0 ≤ dt := hpos dt (List.mem_cons_self dt rest)
    have hrest : ∀ d ∈ rest, 0 ≤ d := fun d hd => hpos d (List.mem_cons_of_mem dt hd)
    have hrs : 0 ≤ rest.sum := List.sum_nonneg hrest
    rw [List.sum_cons] at hsum h4
    rw [patrolSteps_cons]
    by_cases hc : x + dt ≤ -3
    · rw [patrolStep_forward x dt hc]
      exact ih (x + dt) hrest hc (by linarith) (by linarith)
    · rw [patrolStep_cross x dt (not_le.mp hc),
        patrolSteps_backward rest (x + dt) hrest (by linarith [not_le.mp hc])]

/-- One patrol step keeps `PatrolInv`. -/
theorem patrolStep_inv (a v dt : α) (ha : 0 ≤ a) (hv : 0 ≤ v) (hdt : 0 ≤ dt) (s : α × α)
    (h : PatrolInv a v dt s) : PatrolInv a v dt (patrolStep a v dt s) := by
  obtain ⟨x, d⟩ := s
  obtain ⟨hd, hlo, hhi, hup, hdown⟩ := h
  simp only at hd hlo hhi hup hdown
  have hp : 0 ≤ v * dt := mul_nonneg hv hdt
  rcases hd with hd | hd
  · subst hd
    have hxle : x ≤ -6 + a := by
      by_contra hc
      have := hup (not_le.mp hc)
      norm_num at this
    have e : x + 1 * v * dt = x + v * dt := by ring
    by_cases h1 : x + v * dt > -6 + a
    · have h2 : ¬ (x + v * dt < -6 - a) := by intro hc; linarith
      have hs : patrolStep a v dt (x, 1) = (x + v * dt, -1) := by
        simp only [patrolStep, e, h1, h2, if_true, if_false]
      rw [hs]
      exact ⟨Or.inr rfl, by show _ ≤ x + v * dt; linarith, by show x + v * dt ≤ _; linarith,
        fun _ => rfl, fun hc => absurd hc h2⟩
    · by_cases h2 : x + v * dt < -6 - a
      · have hs : patrolStep a v dt (x, 1) = (x + v * dt, 1) := by
          simp only [patrolStep, e, h1, h2, if_true, if_false]
        rw [hs]
        exact ⟨Or.inl rfl, by show _ ≤ x + v * dt; linarith, by show x + v * dt ≤ _; linarith,
          fun hc => absurd hc h1, fun _ => rfl⟩
      · have hs : patrolStep a v dt (x, 1) = (x + v * dt, 1) := by
          simp only [patrolStep, e, h1, h2, if_false]
        rw [hs]
        exact ⟨Or.inl rfl, by show _ ≤ x + v * dt; linarith, by show x + v * dt ≤ _; linarith,
          fun hc => absurd hc h1, fun hc => absurd hc h2⟩
  · subst hd
    have hxge : -6 - a ≤ x := by
      by_contra hc
      have := hdown (not_le.mp hc)
      norm_num at this
    have e : x + -1 * v * dt = x - v * dt := by ring
    by_cases h1 : x - v * dt > -6 + a
    · have h2 : ¬ (x - v * dt < -6 - a) := by intro hc; linarith
      have hs : patrolStep a v dt (x, -1) = (x - v * dt, -1) := by
        simp only [patrolStep, e, h1, h2, if_true, if_false]
      rw [hs]
      exact ⟨Or.inr rfl, by show _ ≤ x - v * dt; linarith, by show x - v * dt ≤ _; linarith,
        fun _ => rfl, fun hc => absurd hc h2⟩
    · by_cases h2 : x - v * dt < -6 - a
      · have hs : patrolStep a v dt (x, -1) = (x - v * dt, 1) := by
          simp only [patrolStep, e, h1, h2, if_true, if_false]
        rw [hs]
        exact ⟨Or.inl rfl, by show _ ≤ x - v * dt; linarith, by show x - v * dt ≤ _; linarith,
          fun hc => absurd hc h1, fun _ => rfl⟩
      · have hs : patrolStep a v dt (x, -1) = (x - v * dt, -1) := by
          simp only [patrolStep, e, h1, h2, if_false]
        rw [hs]
        exact ⟨Or.inr rfl, by show _ ≤ x - v * dt; linarith, by show x - v * dt ≤ _; linarith,
          fun hc => absurd hc h1, fun hc => absurd hc h2⟩

/-- Any number of equal frames keeps `PatrolInv`. -/
theorem patrolSteps_inv (a v dt : α) (ha : 0 ≤ a) (hv : 0 ≤ v) (hdt : 0 ≤ dt) (n : Nat) :
    ∀ s : α × α, PatrolInv a v dt s →
      PatrolInv a v dt (patrolSteps a v s (List.replicate n dt)) := by
  induction n with
  | zero => intro s h; exact h
  | succ n ih =>
    intro s h
    rw [List.replicate_succ, patrolSteps_cons]
    exact ih _ (patrolStep_inv a v dt ha hv hdt s h)

end PatrolLemmas

/-! ## Claims on forward movement and the patrol -/

section PatrolCameraClaims

variable {α : Type} [LinearOrderedField α]

/-- C11: with only the forward key pressed, `processInput` returns the start
position plus (0, 0, -speed * elapsed) and the yaw 0, for every start position,
speed and elapsed time; from the origin with speed 3 and elapsed time 1 that is
the position (0, 0, -3) and the yaw 0. -/
theorem C11_forward_only {L : Libm α} (hL : SqrtSpec L) (hatan : L.atan2 0 1 = 0)
    (k : Keys) (hW : k.keyW = true) (hS : k.keyS = false) (hA : k.keyA = false)
    (hD : k.keyD = false) (deltaTime : α) (shouldClose : Bool) (playerPos : Vec3 α)
    (playerSpeed playerYawDeg : α) :
    (processInput L k deltaTime shouldClose playerPos playerSpeed playerYawDeg).playerPos
      = Vec3.add playerPos ⟨0, 0, -(playerSpeed * deltaTime)⟩ ∧
    (processInput L k deltaTime shouldClose playerPos playerSpeed playerYawDeg).playerYawDeg
      = 0 ∧
    (processInput L k 1 shouldClose ⟨0, 0, 0⟩ 3 playerYawDeg).playerPos = ⟨0, 0, -3⟩ ∧
    (processInput L k 1 shouldClose ⟨0, 0, 0⟩ 3 playerYawDeg).playerYawDeg = 0 := by
  have hd : (inputDir k : Vec3 α) = ⟨0, 0, -1⟩ := by
    simp only [inputDir, hW, hS, hA, hD, Bool.false_eq_true, if_true, if_false, zero_sub]
  have hne : (inputDir k : Vec3 α) ≠ ⟨0, 0, 0⟩ := by
    rw [hd]
    intro h
    have hz := congrArg Vec3.z h
    simp only at hz
    exact absurd hz (by norm_num)
  have hsq : L.sqrt (Vec3.dot (inputDir k : Vec3 α) (inputDir k)) = 1 := by
    rw [hd]
    have h1 : Vec3.dot (⟨0, 0, -1⟩ : Vec3 α) ⟨0, 0, -1⟩ = 1 * 1 := by
      simp only [Vec3.dot]; ring
    rw [h1]
    exact hL.sqrt_mul_self zero_le_one
  have hnorm : Vec3.normalize L (inputDir k : Vec3 α) = ⟨0, 0, -1⟩ := by
    unfold Vec3.normalize
    rw [hsq, hd]
    simp only [Vec3.scale, div_one, mul_one]
  have key : ∀ (dt : α) (p : Vec3 α) (v : α),
      (processInput L k dt shouldClose p v playerYawDeg).playerPos
        = Vec3.add p ⟨0, 0, -(v * dt)⟩ ∧
      (processInput L k dt shouldClose p v playerYawDeg).playerYawDeg = 0 := by
    intro dt p v
    obtain ⟨h1, h2⟩ := processInput_of_dir_ne_zero hL k dt shouldClose p v playerYawDeg hne
    rw [h1, h2, hnorm]
    refine ⟨?_, ?_⟩
    · simp only [Vec3.scale, Vec3.add, zero_mul, neg_mul, one_mul]
    · simp only [neg_neg, hatan, degrees, zero_mul]
  refine ⟨(key deltaTime playerPos playerSpeed).1, (key deltaTime playerPos playerSpeed).2, ?_,
    (key 1 ⟨0, 0, 0⟩ 3).2⟩
  rw [(key 1 ⟨0, 0, 0⟩ 3).1]
  simp only [Vec3.add, zero_add, mul_one]

/-- Witness for C11: scenario 1 of the spec over the reals. -/
theorem C11_forward_only_witness :
    SqrtSpec realLibm ∧ realLibm.atan2 0 1 = 0 ∧
    (processInput realLibm keysW 1 false ⟨0, 0, 0⟩ 3 90).playerPos = ⟨0, 0, -3⟩ ∧
    (processInput realLibm keysW 1 false ⟨0, 0, 0⟩ 3 90).playerYawDeg = 0 :=
  have hatan : realLibm.atan2 0 1 = 0 := by
    show Complex.arg ⟨1, 0⟩ = 0
    have h : (⟨1, 0⟩ : ℂ) = 1 := rfl
    rw [h, Complex.arg_one]
  ⟨realLibm_sqrtSpec, hatan,
   (C11_forward_only realLibm_sqrtSpec hatan keysW rfl rfl rfl rfl 1 false ⟨0, 0, 0⟩ 3 90).2.2⟩

/-- C12: a patrol step advances x by direction * patrolSpeed * elapsed; for a
non-negative amplitude the direction after the step is -1 when the new x is
strictly above -6 + amplitude, +1 when it is strictly below -6 - amplitude, and
unchanged otherwise.  From x = -6, direction +1, amplitude 3, speed 1: after 3
seconds (in one frame, or in any frames of non-negative length adding up to 3)
x = -3 and the direction is still +1; after 4 seconds the direction is -1. -/
theorem C12_patrol_step (a v dt : α) (s : α × α) (ha : 0 ≤ a) :
    (patrolStep a v dt s).1 = s.1 + s.2 * v * dt ∧
    ((patrolStep a v dt s).1 > -6 + a → (patrolStep a v dt s).2 = -1) ∧
    ((patrolStep a v dt s).1 < -6 - a → (patrolStep a v dt s).2 = 1) ∧
    (¬ (patrolStep a v dt s).1 > -6 + a → ¬ (patrolStep a v dt s).1 < -6 - a →
      (patrolStep a v dt s).2 = s.2) ∧
    patrolStep 3 1 3 ((-6 : α), 1) = (-3, 1) ∧
    patrolStep 3 1 4 ((-6 : α), 1) = (-2, -1) ∧
    (∀ dts : List α, (∀ d ∈ dts, 0 ≤ d) → dts.sum = 3 →
      patrolSteps 3 1 ((-6 : α), 1) dts = (-3, 1)) ∧
    (∀ dts : List α, (∀ d ∈ dts, 0 ≤ d) → dts.sum = 4 →
      (patrolSteps 3 1 ((-6 : α), 1) dts).2 = -1) := by
  refine ⟨rfl, ?_, ?_, ?_, ?_, ?_, ?_, ?_⟩
  · intro h
    have h2 : ¬ (s.1 + s.2 * v * dt < -6 - a) := by
      intro hc
      have : s.1 + s.2 * v * dt > -6 + a := h
      linarith
    have h1 : s.1 + s.2 * v * dt > -6 + a := h
    simp only [patrolStep, h1, h2, if_true, if_false]
  · intro h
    have h2 : s.1 + s.2 * v * dt < -6 - a := h
    simp only [patrolStep, h2, if_true]
  · intro h1 h2
    have h1' : ¬ (s.1 + s.2 * v * dt > -6 + a) := h1
    have h2' : ¬ (s.1 + s.2 * v * dt < -6 - a) := h2
    simp only [patrolStep, h1', h2', if_false]
  · rw [patrolStep_forward (-6) 3 (by norm_num)]
    norm_num
  · rw [patrolStep_cross (-6) 4 (by norm_num)]
    norm_num
  · intro dts hpos hsum
    rw [patrolSteps_forward dts (-6) hpos (by rw [hsum]; norm_num), hsum]
    norm_num
  · intro dts hpos hsum
    exact patrolSteps_turn dts (-6) hpos (by norm_num) (by rw [hsum]; norm_num)
      (by rw [hsum])

/-- Witness for C12: the amplitude 3 of the source, one frame of a quarter of
a second from the start of the patrol. -/
theorem C12_patrol_step_witness :
    (0 : ℚ) ≤ 3 ∧ (patrolStep 3 1 (1 / 4) ((-6 : ℚ), 1)).1 = -6 + 1 * 1 * (1 / 4) :=
  ⟨by norm_num, (C12_patrol_step 3 1 (1 / 4) ((-6 : ℚ), 1) (by norm_num)).1⟩

/-- C13: with frames of a common non-negative length `dt`, non-negative
amplitude and patrol speed, a start x inside [-6 - amplitude, -6 + amplitude]
and a start direction +1 or -1, the x after any number of patrol steps lies in
[-6 - amplitude - patrolSpeed * dt, -6 + amplitude + patrolSpeed * dt]. -/
theorem C13_patrol_stays_near_interval (a v dt x d : α) (n : Nat)
    (ha : 0 ≤ a) (hv : 0 ≤ v) (hdt : 0 ≤ dt)
    (hlo : -6 - a ≤ x) (hhi : x ≤ -6 + a) (hd : d = 1 ∨ d = -1) :
    -6 - a - v * dt ≤ (patrolSteps a v (x, d) (List.replicate n dt)).1 ∧
    (patrolSteps a v (x, d) (List.replicate n dt)).1 ≤ -6 + a + v * dt := by
  have hp : 0 ≤ v * dt := mul_nonneg hv hdt
  have h0 : PatrolInv a v dt (x, d) :=
    ⟨hd, by simp only; linarith, by simp only; linarith,
      fun hc => absurd hc (not_lt.mpr hhi), fun hc => absurd hc (not_lt.mpr hlo)⟩
  have h := patrolSteps_inv a v dt ha hv hdt n (x, d) h0
  exact ⟨h.2.1, h.2.2.1⟩

/-- Witness for C13: the patrol of the source (amplitude 3, speed 1) run for
five frames of two seconds from x = -4. -/
theorem C13_patrol_stays_near_interval_witness :
    (0 : ℚ) ≤ 3 ∧ (0 : ℚ) ≤ 1 ∧ (0 : ℚ) ≤ 2 ∧ (-6 - 3 : ℚ) ≤ -4 ∧ (-4 : ℚ) ≤ -6 + 3 ∧
    ((1 : ℚ) = 1 ∨ (1 : ℚ) = -1) ∧
    -6 - 3 - 1 * 2 ≤ (patrolSteps 3 1 ((-4 : ℚ), 1) (List.replicate 5 2)).1 ∧
    (patrolSteps 3 1 ((-4 : ℚ), 1) (List.replicate 5 2)).1 ≤ -6 + 3 + 1 * 2 :=
  ⟨by norm_num, by norm_num, by norm_num, by norm_num, by norm_num, Or.inl rfl,
   C13_patrol_stays_near_interval 3 1 2 (-4) 1 5 (by norm_num) (by norm_num) (by norm_num)
     (by norm_num) (by norm_num) (Or.inl rfl)⟩

end PatrolCameraClaims


/-! ## Helper lemmas for the frame loop -/

/-- The refresh of the boxes establishes `BoxesSynced`. -/
theorem refreshBoxes_synced {α : Type} (w : World α) : BoxesSynced (refreshBoxes w) :=
  ⟨rfl, rfl, rfl⟩

section FrameLemmas

variable {α : Type} [LinearOrderedField α]

/-- When the box centre is the position (x, z) before `ResolveStatic`, it is
after it. -/
theorem ResolveStatic_keeps_centre (m : ResolveArgs α)
    (h : m.dynBox.center = ⟨m.playerPos.x, m.playerPos.z⟩) :
    (ResolveStatic m).dynBox.center
      = ⟨(ResolveStatic m).playerPos.x, (ResolveStatic m).playerPos.z⟩ := by
  have hcx : m.dynBox.center.x = m.playerPos.x := by rw [h]
  have hcy : m.dynBox.center.y = m.playerPos.z := by rw [h]
  by_cases hs : penX m.statBox m.dynBox < 0 ∨ penZ m.statBox m.dynBox < 0
  · rw [ResolveStatic_separated m hs]
    exact h
  · have hx : 0 ≤ penX m.statBox m.dynBox := not_lt.mp (fun c => hs (Or.inl c))
    have hz : 0 ≤ penZ m.statBox m.dynBox := not_lt.mp (fun c => hs (Or.inr c))
    by_cases hlt : penX m.statBox m.dynBox < penZ m.statBox m.dynBox
    · rw [ResolveStatic_shallow_x m hx hz hlt]
      simp only [hcx, hcy]
    · rw [ResolveStatic_shallow_z m hx hz hlt]
      simp only [hcx, hcy]

/-- One iteration of the rock loop keeps `BoxesSynced`. -/
theorem collideRock_synced (w : World α) (r : Rock α) (h : BoxesSynced w) :
    BoxesSynced (collideRock w r) := by
  unfold collideRock
  by_cases hi : Intersects w.playerBox r.box = true
  · rw [if_pos hi]
    exact ⟨ResolveStatic_keeps_centre
      { statBox := r.box, dynBox := w.playerBox, playerPos := w.playerPos } h.1, h.2.1, h.2.2⟩
  · rw [if_neg hi]
    exact h

/-- Any number of iterations of the rock loop keeps `BoxesSynced`. -/
theorem foldl_collideRock_synced (rs : List (Rock α)) :
    ∀ w : World α, BoxesSynced w → BoxesSynced (rs.foldl collideRock w) := by
  induction rs with
  | nil => intro w h; exact h
  | cons r rest ih => intro w h; exact ih _ (collideRock_synced w r h)

/-- One iteration of the rock loop touches only the player box and position. -/
theorem collideRock_frame (w : World α) (r : Rock α) :
    (collideRock w r).itemCollected = w.itemCollected ∧ (collideRock w r).out = w.out := by
  unfold collideRock
  by_cases hi : Intersects w.playerBox r.box = true
  · rw [if_pos hi]; exact ⟨rfl, rfl⟩
  · rw [if_neg hi]; exact ⟨rfl, rfl⟩

/-- The rock loop touches neither the collected flag nor the output. -/
theorem foldl_collideRock_frame (rs : List (Rock α)) :
    ∀ w : World α, (rs.foldl collideRock w).itemCollected = w.itemCollected ∧
      (rs.foldl collideRock w).out = w.out := by
  induction rs with
  | nil => intro w; exact ⟨rfl, rfl⟩
  | cons r rest ih =>
    intro w
    rw [List.foldl_cons, (ih _).1, (ih _).2]
    exact collideRock_frame w r

/-- The collected flag and the output at the item test are those at the start
of the pass. -/
theorem beforeItem_frame (L : Libm α) (w : World α) (i : FrameInput α) :
    (beforeItem L w i).itemCollected = w.itemCollected ∧ (beforeItem L w i).out = w.out := by
  unfold beforeItem collideRocks
  rw [(foldl_collideRock_frame _ _).1, (foldl_collideRock_frame _ _).2]
  exact ⟨rfl, rfl⟩

/-- The item pickup keeps `BoxesSynced`. -/
theorem pickupItem_synced (w : World α) (h : BoxesSynced w) : BoxesSynced (pickupItem w) := by
  unfold pickupItem
  split
  · exact h
  · exact h

/-- The knockback, when it has a result, touches only the player position and
box centre, and leaves them in agreement. -/
theorem knockback_some (L : Libm α) (w w1 : World α) (h : knockback L w = some w1) :
    w1.itemCollected = w.itemCollected ∧ w1.out = w.out ∧
    (BoxesSynced w → BoxesSynced w1) := by
  unfold knockback at h
  by_cases hi : Intersects w.playerBox w.enemyBox = true
  · rw [if_pos hi] at h
    cases hn : Vec2.normalizeUnguarded L (Vec2.sub w.playerBox.center w.enemyBox.center) with
    | none => rw [hn] at h; cases h
    | some p =>
      rw [hn] at h
      simp only [Option.some.injEq] at h
      subst h
      exact ⟨rfl, rfl, fun hs => ⟨rfl, hs.2.1, hs.2.2⟩⟩
  · rw [if_neg hi] at h
    simp only [Option.some.injEq] at h
    subst h
    exact ⟨rfl, rfl, fun hs => hs⟩

/-- The knockback has no result only when the enemy test fires and the
normalisation divides by zero. -/
theorem knockback_none (L : Libm α) (w : World α) (h : knockback L w = none) :
    Intersects w.playerBox w.enemyBox = true ∧
    L.sqrt (Vec2.dot (Vec2.sub w.playerBox.center w.enemyBox.center)
      (Vec2.sub w.playerBox.center w.enemyBox.center)) = 0 := by
  unfold knockback at h
  by_cases hi : Intersects w.playerBox w.enemyBox = true
  · refine ⟨hi, ?_⟩
    by_contra hs
    rw [if_pos hi] at h
    simp only [Vec2.normalizeUnguarded, hs, if_false] at h
    cases h
  · rw [if_neg hi] at h
    cases h

/-- A pass with a result: the state it came from through knockback. -/
theorem tick_some (L : Libm α) (w w1 : World α) (i : FrameInput α)
    (h : tick L w i = some w1) :
    ∃ w2, knockback L (beforeEnemy L w i) = some w2 ∧ w1 = followCamera L w2 := by
  unfold tick at h
  cases hk : knockback L (beforeEnemy L w i) with
  | none => rw [hk] at h; cases h
  | some w2 =>
    rw [hk] at h
    have h2 : some (followCamera L w2) = some w1 := h
    exact ⟨w2, rfl, (Option.some.inj h2).symm⟩

/-- What one pass does to the collected flag and the output. -/
theorem tick_item (L : Libm α) (w w1 : World α) (i : FrameInput α)
    (h : tick L w i = some w1) :
    w1.itemCollected = (w.itemCollected || overlapsItem L w i) ∧
    w1.out = w.out ++ (if !w.itemCollected && overlapsItem L w i then [pickupMessage] else []) := by
  obtain ⟨w2, hk, rfl⟩ := tick_some L w w1 i h
  obtain ⟨hc, ho, -⟩ := knockback_some L _ _ hk
  have hb := beforeItem_frame L w i
  show w2.itemCollected = _ ∧ w2.out = _
  rw [hc, ho]
  unfold beforeEnemy pickupItem overlapsItem
  rw [hb.1]
  by_cases hp : (!w.itemCollected && Intersects (beforeItem L w i).playerBox
      (beforeItem L w i).itemBox) = true
  · rw [if_pos hp, if_pos hp]
    simp only [Bool.and_eq_true, Bool.not_eq_true'] at hp
    simp only [hp.1, hp.2, Bool.or_true, hb.2, and_self]
  · rw [if_neg hp, if_neg hp, hb.1, hb.2]
    simp only [Bool.and_eq_true, Bool.not_eq_true', not_and, Bool.not_eq_true] at hp
    cases hc : w.itemCollected
    · simp only [hp hc, Bool.or_false, List.append_nil, and_self]
    · simp only [Bool.true_or, List.append_nil, and_self]

/-- The passes over a non-empty sequence: first pass, then the rest. -/
theorem ticks_cons (L : Libm α) (w : World α) (i : FrameInput α) (is : List (FrameInput α)) :
    ticks L w (i :: is) = (tick L w i).bind fun w1 => ticks L w1 is := rfl

/-- A run from a first pass with a result. -/
theorem ticks_cons_some (L : Libm α) (w w1 : World α) (i : FrameInput α)
    (is : List (FrameInput α)) (h : tick L w i = some w1) :
    ticks L w (i :: is) = ticks L w1 is := by
  rw [ticks_cons, h]; rfl

/-- Once collected, the item stays collected and nothing more is printed. -/
theorem ticks_collected (L : Libm α) (is : List (FrameInput α)) :
    ∀ w w1 : World α, ticks L w is = some w1 → w.itemCollected = true →
      w1.itemCollected = true ∧ w1.out = w.out := by
  induction is with
  | nil =>
    intro w w1 h hc
    simp only [ticks, Option.some.injEq] at h
    subst h
    exact ⟨hc, rfl⟩
  | cons i rest ih =>
    intro w w1 h hc
    rw [ticks_cons] at h
    cases ht : tick L w i with
    | none => rw [ht] at h; cases h
    | some w2 =>
      rw [ht] at h
      obtain ⟨h1, h2⟩ := tick_item L w w2 i ht
      rw [hc] at h1 h2
      simp only [Bool.true_or, Bool.not_true, Bool.false_and, Bool.false_eq_true, if_false,
        List.append_nil] at h1 h2
      obtain ⟨h3, h4⟩ := ih w2 w1 h h1
      exact ⟨h3, by rw [h4, h2]⟩

/-- From an uncollected item: collected at the end iff some pass overlapped,
and at most one notification. -/
theorem ticks_uncollected (L : Libm α) (is : List (FrameInput α)) :
    ∀ w w1 : World α, ticks L w is = some w1 → w.itemCollected = false →
      (w1.itemCollected = true ↔
        ∃ pre i post wk, is = pre ++ i :: post ∧ ticks L w pre = some wk ∧
          overlapsItem L wk i = true) ∧
      w1.out = w.out ++ (if w1.itemCollected then [pickupMessage] else []) := by
  induction is with
  | nil =>
    intro w w1 h hc
    simp only [ticks, Option.some.injEq] at h
    subst h
    refine ⟨⟨fun h => ?_, fun ⟨pre, i, post, wk, he, _⟩ => ?_⟩, ?_⟩
    · rw [hc] at h; cases h
    · cases pre <;> simp at he
    · rw [hc]; simp
  | cons i rest ih =>
    intro w w1 h hc
    rw [ticks_cons] at h
    cases ht : tick L w i with
    | none => rw [ht] at h; cases h
    | some w2 =>
      rw [ht] at h
      have h : ticks L w2 rest = some w1 := h
      obtain ⟨h1, h2⟩ := tick_item L w w2 i ht
      rw [hc] at h1 h2
      simp only [Bool.false_or, Bool.not_false, Bool.true_and] at h1 h2
      cases ho : overlapsItem L w i with
      | true =>
        rw [ho] at h1 h2
        simp only [if_true] at h2
        obtain ⟨h3, h4⟩ := ticks_collected L rest w2 w1 h h1
        refine ⟨⟨fun _ => ⟨[], i, rest, w, rfl, rfl, ho⟩, fun _ => h3⟩, ?_⟩
        rw [h4, h2, h3]
        simp
      | false =>
        rw [ho] at h1 h2
        simp only [Bool.false_eq_true, if_false, List.append_nil] at h2
        obtain ⟨h3, h4⟩ := ih w2 w1 h h1
        refine ⟨⟨fun hcol => ?_, fun ⟨pre, j, post, wk, he, hr, hov⟩ => ?_⟩, ?_⟩
        · obtain ⟨pre, j, post, wk, he, hr, hov⟩ := h3.mp hcol
          refine ⟨i :: pre, j, post, wk, ?_, ?_, hov⟩
          · rw [he]; rfl
          · rw [ticks_cons_some L w w2 i pre ht]; exact hr
        · cases pre with
          | nil =>
            simp only [List.nil_append, List.cons.injEq] at he
            obtain ⟨rfl, -⟩ := he
            simp only [ticks, Option.some.injEq] at hr
            subst hr
            rw [ho] at hov
            cases hov
          | cons p pre2 =>
            simp only [List.cons_append, List.cons.injEq] at he
            obtain ⟨rfl, he2⟩ := he
            rw [ticks_cons_some L w w2 _ pre2 ht] at hr
            exact h3.mpr ⟨pre2, j, post, wk, he2, hr, hov⟩
        · rw [h4, h2]

/-- Distinct centres give a positive normaliser. -/
theorem sqrt_dot_sub_pos {L : Libm α} (hL : SqrtSpec L) (p e : Vec2 α) (hne : p ≠ e) :
    0 < L.sqrt (Vec2.dot (Vec2.sub p e) (Vec2.sub p e)) := by
  apply hL.sqrt_pos
  have hor : p.x - e.x ≠ 0 ∨ p.y - e.y ≠ 0 := by
    by_contra hc
    push_neg at hc
    apply hne
    obtain ⟨px, py⟩ := p
    obtain ⟨ex, ey⟩ := e
    simp only at hc
    rw [sub_eq_zero.mp hc.1, sub_eq_zero.mp hc.2]
  unfold Vec2.dot Vec2.sub
  rcases hor with h | h
  · exact add_pos_of_pos_of_nonneg (mul_self_pos.mpr h) (mul_self_nonneg _)
  · exact add_pos_of_nonneg_of_pos (mul_self_nonneg _) (mul_self_pos.mpr h)

/-- The knockback when the enemy test fires and the centres differ. -/
theorem knockback_apart {L : Libm α} (hL : SqrtSpec L) (b : World α)
    (hI : Intersects b.playerBox b.enemyBox = true)
    (hne : b.playerBox.center ≠ b.enemyBox.center) :
    knockback L b = some
      { b with
        playerPos :=
          ⟨b.playerPos.x + (Vec2.sub b.playerBox.center b.enemyBox.center).x
              * (1 / Vec2.length L (Vec2.sub b.playerBox.center b.enemyBox.center)) * (6 / 5),
           b.playerPos.y,
           b.playerPos.z + (Vec2.sub b.playerBox.center b.enemyBox.center).y
              * (1 / Vec2.length L (Vec2.sub b.playerBox.center b.enemyBox.center)) * (6 / 5)⟩
        playerBox :=
          { b.playerBox with
            center :=
              ⟨b.playerPos.x + (Vec2.sub b.playerBox.center b.enemyBox.center).x
                  * (1 / Vec2.length L (Vec2.sub b.playerBox.center b.enemyBox.center)) * (6 / 5),
               b.playerPos.z + (Vec2.sub b.playerBox.center b.enemyBox.center).y
                  * (1 / Vec2.length L (Vec2.sub b.playerBox.center b.enemyBox.center))
                  * (6 / 5)⟩ } } := by
  have hs := ne_of_gt (sqrt_dot_sub_pos hL _ _ hne)
  unfold knockback
  rw [if_pos hI]
  simp only [Vec2.normalizeUnguarded, hs, if_false, Vec2.length]

/-- The knockback when the enemy test fires and the centres coincide. -/
theorem knockback_coincident {L : Libm α} (hL : SqrtSpec L) (b : World α)
    (hI : Intersects b.playerBox b.enemyBox = true)
    (heq : b.playerBox.center = b.enemyBox.center) :
    knockback L b = none := by
  unfold knockback
  rw [if_pos hI, heq]
  simp only [Vec2.normalizeUnguarded, Vec2.sub, Vec2.dot, sub_self, mul_zero, add_zero,
    hL.sqrt_zero, if_true]

/-- The knockback when the enemy test does not fire. -/
theorem knockback_clear (L : Libm α) (b : World α)
    (hI : Intersects b.playerBox b.enemyBox = false) : knockback L b = some b := by
  unfold knockback
  rw [hI]
  rfl

/-- The loop state at the enemy test, from the start state with the player on
the enemy, no key pressed and no time elapsed. -/
theorem beforeEnemy_clashWorld :
    beforeEnemy realLibm (clashWorld startCamera) ⟨0, noKeys⟩
      = refreshBoxes (clashWorld startCamera) := by
  simp [beforeEnemy, beforeItem, beforeRocks, collideRocks, collideRock, pickupItem,
    refreshBoxes, patrolEnemy, patrolStep, movePlayer, frameTime, processInput, inputDir, noKeys,
    initialWorld, clashWorld, Intersects, Vec3.length, Vec3.dot, realLibm, startCamera]
  norm_num [abs_div, abs_neg]

/-- The loop state at the enemy test, from the start state with the player
next to the enemy, no key pressed and no time elapsed. -/
theorem beforeEnemy_nearEnemyWorld :
    beforeEnemy realLibm (nearEnemyWorld startCamera) ⟨0, noKeys⟩
      = refreshBoxes (nearEnemyWorld startCamera) := by
  simp [beforeEnemy, beforeItem, beforeRocks, collideRocks, collideRock, pickupItem,
    refreshBoxes, patrolEnemy, patrolStep, movePlayer, frameTime, processInput, inputDir, noKeys,
    initialWorld, nearEnemyWorld, Intersects, Vec3.length, Vec3.dot, realLibm, startCamera]
  norm_num [abs_div, abs_neg]

/-- The loop state at the item test, from the start state with the player next
to the item, no key pressed and no time elapsed. -/
theorem beforeItem_nearItemWorld :
    beforeItem realLibm (nearItemWorld startCamera) ⟨0, noKeys⟩
      = refreshBoxes (nearItemWorld startCamera) := by
  simp [beforeItem, beforeRocks, collideRocks, collideRock,
    refreshBoxes, patrolEnemy, patrolStep, movePlayer, frameTime, processInput, inputDir, noKeys,
    initialWorld, nearItemWorld, Intersects, Vec3.length, Vec3.dot, realLibm, startCamera]
  norm_num [abs_div, abs_neg]

end FrameLemmas

/-! ## Claims on the frame loop -/

section FrameClaims

variable {α : Type} [LinearOrderedField α]

/-- C15: in a pass of the loop the collected flag becomes true exactly when it
was true already or the player box overlaps the item box at the item test, and
the notification is printed exactly when the flag was false and the boxes
overlap.  Over any sequence of passes from an uncollected item: the flag is
true at the end iff some pass of the sequence had the overlap, a collected item
stays collected, and the output has grown by exactly one notification if the
item is collected and by nothing otherwise, however many passes overlap. -/
theorem C15_pickup_once (L : Libm α) (w w1 : World α) (is : List (FrameInput α))
    (h0 : w.itemCollected = false) (hrun : ticks L w is = some w1) :
    (w1.itemCollected = true ↔
      ∃ pre i post wk, is = pre ++ i :: post ∧ ticks L w pre = some wk ∧
        overlapsItem L wk i = true) ∧
    w1.out = w.out ++ (if w1.itemCollected then [pickupMessage] else []) ∧
    (∀ (u u1 : World α) (i : FrameInput α), tick L u i = some u1 →
      (u.itemCollected = true → u1.itemCollected = true ∧ u1.out = u.out) ∧
      (u.itemCollected = false → overlapsItem L u i = true →
        u1.itemCollected = true ∧ u1.out = u.out ++ [pickupMessage]) ∧
      (u.itemCollected = false → overlapsItem L u i = false →
        u1.itemCollected = false ∧ u1.out = u.out)) ∧
    (∀ (js : List (FrameInput α)) (w2 : World α), ticks L w1 js = some w2 →
      w1.itemCollected = true → w2.itemCollected = true ∧ w2.out = w1.out) := by
  refine ⟨?_, ?_, ?_, fun js w2 h hc => ticks_collected L js w1 w2 h hc⟩
  · exact (ticks_uncollected L is w w1 hrun h0).1
  · exact (ticks_uncollected L is w w1 hrun h0).2
  · intro u u1 i ht
    obtain ⟨h1, h2⟩ := tick_item L u u1 i ht
    refine ⟨fun hc => ?_, fun hc ho => ?_, fun hc ho => ?_⟩
    · rw [hc] at h1 h2
      simp only [Bool.true_or, Bool.not_true, Bool.false_and, Bool.false_eq_true, if_false,
        List.append_nil] at h1 h2
      exact ⟨h1, h2⟩
    · rw [hc, ho] at h1 h2
      simp only [Bool.or_true, Bool.not_false, Bool.and_self, if_true] at h1 h2
      exact ⟨h1, h2⟩
    · rw [hc, ho] at h1 h2
      simp only [Bool.or_false, Bool.not_false, Bool.and_false, Bool.false_eq_true, if_false,
        List.append_nil] at h1 h2
      exact ⟨h1, h2⟩

/-- C18: in every pass of the loop `BoxesSynced` holds after the refresh of
the boxes, before each iteration of the rock loop (where `Intersects` is tested
and `ResolveStatic` called) and after the last one, at the item test, at the
enemy test, and at the end of the pass whenever the pass has a result; and the
pass has no result only when the enemy test fires and the normalisation of the
knockback divides by zero. -/
theorem C18_boxes_synced_in_tick (L : Libm α) (w : World α) (i : FrameInput α) :
    BoxesSynced (beforeRocks L w i) ∧
    (∀ n : Nat, BoxesSynced
      (((beforeRocks L w i).rocks.take n).foldl collideRock (beforeRocks L w i))) ∧
    BoxesSynced (beforeItem L w i) ∧
    BoxesSynced (beforeEnemy L w i) ∧
    (∀ w1 : World α, tick L w i = some w1 → BoxesSynced w1) ∧
    (tick L w i = none →
      Intersects (beforeEnemy L w i).playerBox (beforeEnemy L w i).enemyBox = true ∧
      L.sqrt (Vec2.dot
        (Vec2.sub (beforeEnemy L w i).playerBox.center (beforeEnemy L w i).enemyBox.center)
        (Vec2.sub (beforeEnemy L w i).playerBox.center (beforeEnemy L w i).enemyBox.center))
        = 0) := by
  have h1 : BoxesSynced (beforeRocks L w i) := refreshBoxes_synced _
  have h2 : BoxesSynced (beforeItem L w i) := foldl_collideRock_synced _ _ h1
  have h3 : BoxesSynced (beforeEnemy L w i) := pickupItem_synced _ h2
  refine ⟨h1, fun n => foldl_collideRock_synced _ _ h1, h2, h3, ?_, ?_⟩
  · intro w1 ht
    obtain ⟨w2, hk, rfl⟩ := tick_some L w w1 i ht
    exact (knockback_some L _ _ hk).2.2 h3
  · intro ht
    apply knockback_none
    unfold tick at ht
    cases hk : knockback L (beforeEnemy L w i) with
    | none => rfl
    | some w2 => rw [hk] at ht; cases ht

/-- Witness for C15: the player stands next to the item for one pass; the item
is collected and one notification is printed. -/
theorem C15_pickup_once_witness :
    (nearItemWorld startCamera).itemCollected = false ∧
    ∃ w1 : World ℝ, ticks realLibm (nearItemWorld startCamera) [⟨0, noKeys⟩] = some w1 ∧
      w1.itemCollected = true ∧
      w1.out = (nearItemWorld startCamera).out ++
        (if w1.itemCollected then [pickupMessage] else []) := by
  have hb := beforeItem_nearItemWorld
  have hov : Intersects (refreshBoxes (nearItemWorld startCamera)).playerBox
      (refreshBoxes (nearItemWorld startCamera)).itemBox = true := by
    rw [Intersects_eq_true_iff]
    norm_num [refreshBoxes, nearItemWorld, initialWorld, abs_div, abs_neg]
  have hp : beforeEnemy realLibm (nearItemWorld startCamera) ⟨0, noKeys⟩
      = { refreshBoxes (nearItemWorld startCamera) with
          itemCollected := true
          out := (refreshBoxes (nearItemWorld startCamera)).out ++ [pickupMessage] } := by
    unfold beforeEnemy pickupItem
    rw [hb, hov]
    rfl
  have hk : knockback realLibm (beforeEnemy realLibm (nearItemWorld startCamera) ⟨0, noKeys⟩)
      = some (beforeEnemy realLibm (nearItemWorld startCamera) ⟨0, noKeys⟩) := by
    apply knockback_clear
    rw [hp]
    simp [Intersects, refreshBoxes, nearItemWorld, initialWorld]
    norm_num [abs_div, abs_neg]
  have ht : ticks realLibm (nearItemWorld startCamera) [⟨0, noKeys⟩]
      = some (followCamera realLibm
          (beforeEnemy realLibm (nearItemWorld startCamera) ⟨0, noKeys⟩)) := by
    simp only [ticks, tick, hk, Option.map_some', Option.some_bind]
  refine ⟨rfl, _, ht, ?_, (C15_pickup_once realLibm _ _ _ rfl ht).2.1⟩
  show (beforeEnemy realLibm (nearItemWorld startCamera) ⟨0, noKeys⟩).itemCollected = true
  rw [hp]

/-- C16: when, at the enemy test of a pass, the player box overlaps the enemy
box and their centres differ, the pass has a result in which the player's
(x, z) has moved by the unit vector from the enemy centre to the player centre
times 1.2: the move is a positive multiple of that centre difference, has
length exactly 1.2, leaves the vertical coordinate unchanged, and the player
box centre is the new position. -/
theorem C16_knockback_radial {L : Libm α} (hL : SqrtSpec L) (w b : World α)
    (i : FrameInput α) (hb : beforeEnemy L w i = b)
    (hI : Intersects b.playerBox b.enemyBox = true)
    (hne : b.playerBox.center ≠ b.enemyBox.center) :
    ∃ w1 : World α, tick L w i = some w1 ∧
      0 < Vec2.length L (Vec2.sub b.playerBox.center b.enemyBox.center) ∧
      w1.playerPos.x - b.playerPos.x
        = (Vec2.sub b.playerBox.center b.enemyBox.center).x
            / Vec2.length L (Vec2.sub b.playerBox.center b.enemyBox.center) * (6 / 5) ∧
      w1.playerPos.z - b.playerPos.z
        = (Vec2.sub b.playerBox.center b.enemyBox.center).y
            / Vec2.length L (Vec2.sub b.playerBox.center b.enemyBox.center) * (6 / 5) ∧
      Vec2.length L
        ⟨(Vec2.sub b.playerBox.center b.enemyBox.center).x
            / Vec2.length L (Vec2.sub b.playerBox.center b.enemyBox.center),
         (Vec2.sub b.playerBox.center b.enemyBox.center).y
            / Vec2.length L (Vec2.sub b.playerBox.center b.enemyBox.center)⟩ = 1 ∧
      Vec2.length L ⟨w1.playerPos.x - b.playerPos.x, w1.playerPos.z - b.playerPos.z⟩ = 6 / 5 ∧
      w1.playerPos.y = b.playerPos.y ∧
      w1.playerBox.center = ⟨w1.playerPos.x, w1.playerPos.z⟩ := by
  have hk := knockback_apart hL b hI hne
  have hs := sqrt_dot_sub_pos hL _ _ hne
  have hss := (hL _ (le_of_lt (show 0 < Vec2.dot
    (Vec2.sub b.playerBox.center b.enemyBox.center)
    (Vec2.sub b.playerBox.center b.enemyBox.center) by
      by_contra hc
      have h0 := hL.sqrt_pos (x := Vec2.dot (Vec2.sub b.playerBox.center b.enemyBox.center)
        (Vec2.sub b.playerBox.center b.enemyBox.center))
      rcases lt_trichotomy (Vec2.dot (Vec2.sub b.playerBox.center b.enemyBox.center)
        (Vec2.sub b.playerBox.center b.enemyBox.center)) 0 with h | h | h
      · have : 0 ≤ Vec2.dot (Vec2.sub b.playerBox.center b.enemyBox.center)
            (Vec2.sub b.playerBox.center b.enemyBox.center) :=
          add_nonneg (mul_self_nonneg _) (mul_self_nonneg _)
        exact absurd h (not_lt.mpr this)
      · rw [h, hL.sqrt_zero] at hs
        exact absurd hs (lt_irrefl 0)
      · exact hc h))).2
  obtain ⟨w2, hk2, hp, hc⟩ : ∃ w2 : World α, knockback L b = some w2 ∧
      w2.playerPos =
        ⟨b.playerPos.x + (Vec2.sub b.playerBox.center b.enemyBox.center).x
            * (1 / Vec2.length L (Vec2.sub b.playerBox.center b.enemyBox.center)) * (6 / 5),
         b.playerPos.y,
         b.playerPos.z + (Vec2.sub b.playerBox.center b.enemyBox.center).y
            * (1 / Vec2.length L (Vec2.sub b.playerBox.center b.enemyBox.center)) * (6 / 5)⟩ ∧
      w2.playerBox.center = ⟨w2.playerPos.x, w2.playerPos.z⟩ := ⟨_, hk, rfl, rfl⟩
  have htick : tick L w i = some (followCamera L w2) := by
    rw [tick, hb, hk2]; rfl
  refine ⟨followCamera L w2, htick, hs, ?_, ?_, ?_, ?_, ?_, hc⟩
  · show w2.playerPos.x - b.playerPos.x = _
    rw [hp]
    show b.playerPos.x + _ * (1 / _) * (6 / 5) - b.playerPos.x = _
    rw [add_sub_cancel_left, mul_one_div]
  · show w2.playerPos.z - b.playerPos.z = _
    rw [hp]
    show b.playerPos.z + _ * (1 / _) * (6 / 5) - b.playerPos.z = _
    rw [add_sub_cancel_left, mul_one_div]
  · generalize Vec2.sub b.playerBox.center b.enemyBox.center = u at hs hss ⊢
    unfold Vec2.length
    generalize L.sqrt (Vec2.dot u u) = s at hs hss ⊢
    have hne0 : s ≠ 0 := ne_of_gt hs
    have e : Vec2.dot (⟨u.x / s, u.y / s⟩ : Vec2 α) ⟨u.x / s, u.y / s⟩ = 1 * 1 := by
      simp only [Vec2.dot] at hss ⊢
      field_simp
      linear_combination -hss
    rw [e]
    exact hL.sqrt_mul_self zero_le_one
  · show Vec2.length L ⟨w2.playerPos.x - b.playerPos.x, w2.playerPos.z - b.playerPos.z⟩ = _
    rw [hp]
    show Vec2.length L ⟨b.playerPos.x + _ * (1 / _) * (6 / 5) - b.playerPos.x,
      b.playerPos.z + _ * (1 / _) * (6 / 5) - b.playerPos.z⟩ = _
    rw [add_sub_cancel_left, add_sub_cancel_left]
    generalize Vec2.sub b.playerBox.center b.enemyBox.center = u at hs hss ⊢
    unfold Vec2.length
    generalize L.sqrt (Vec2.dot u u) = s at hs hss ⊢
    have hne0 : s ≠ 0 := ne_of_gt hs
    have e : Vec2.dot (⟨u.x * (1 / s) * (6 / 5), u.y * (1 / s) * (6 / 5)⟩ : Vec2 α)
        ⟨u.x * (1 / s) * (6 / 5), u.y * (1 / s) * (6 / 5)⟩ = (6 / 5) * (6 / 5) := by
      simp only [Vec2.dot] at hss ⊢
      field_simp
      linear_combination (-900 : α) * hss
    rw [e]
    exact hL.sqrt_mul_self (by norm_num)
  · show w2.playerPos.y = b.playerPos.y
    rw [hp]

/-- Witness for C16: the player half a unit to the right of the enemy, no key
pressed, no time elapsed; the pass has a result and the player keeps its
height. -/
theorem C16_knockback_radial_witness :
    SqrtSpec realLibm ∧
    Intersects (refreshBoxes (nearEnemyWorld startCamera)).playerBox
      (refreshBoxes (nearEnemyWorld startCamera)).enemyBox = true ∧
    (refreshBoxes (nearEnemyWorld startCamera)).playerBox.center
      ≠ (refreshBoxes (nearEnemyWorld startCamera)).enemyBox.center ∧
    ∃ w1 : World ℝ, tick realLibm (nearEnemyWorld startCamera) ⟨0, noKeys⟩ = some w1 ∧
      Vec2.length realLibm
        ⟨w1.playerPos.x - (refreshBoxes (nearEnemyWorld startCamera)).playerPos.x,
         w1.playerPos.z - (refreshBoxes (nearEnemyWorld startCamera)).playerPos.z⟩ = 6 / 5 := by
  have hI : Intersects (refreshBoxes (nearEnemyWorld startCamera)).playerBox
      (refreshBoxes (nearEnemyWorld startCamera)).enemyBox = true := by
    rw [Intersects_eq_true_iff]
    norm_num [refreshBoxes, nearEnemyWorld, initialWorld, abs_div, abs_neg]
  have hne : (refreshBoxes (nearEnemyWorld startCamera)).playerBox.center
      ≠ (refreshBoxes (nearEnemyWorld startCamera)).enemyBox.center := by
    intro h
    have hx := congrArg Vec2.x h
    norm_num [refreshBoxes, nearEnemyWorld, initialWorld] at hx
  obtain ⟨w1, h1, -, -, -, -, h5, -⟩ := C16_knockback_radial realLibm_sqrtSpec
    (nearEnemyWorld startCamera) (refreshBoxes (nearEnemyWorld startCamera)) ⟨0, noKeys⟩
    beforeEnemy_nearEnemyWorld hI hne
  exact ⟨realLibm_sqrtSpec, hI, hne, w1, h1, h5⟩

/-- C17 (the code at the failing input): with the player on the enemy's start
position, no key pressed and no time elapsed, the box centres coincide at the
enemy test, the test fires, the unguarded normalisation divides by zero, and
the pass has no valid result. -/
theorem C17_coincident_centres_no_fallback :
    (beforeEnemy realLibm (clashWorld startCamera) ⟨0, noKeys⟩).playerBox.center
      = (beforeEnemy realLibm (clashWorld startCamera) ⟨0, noKeys⟩).enemyBox.center ∧
    Intersects (beforeEnemy realLibm (clashWorld startCamera) ⟨0, noKeys⟩).playerBox
      (beforeEnemy realLibm (clashWorld startCamera) ⟨0, noKeys⟩).enemyBox = true ∧
    Vec2.normalizeUnguarded realLibm
      (Vec2.sub (beforeEnemy realLibm (clashWorld startCamera) ⟨0, noKeys⟩).playerBox.center
        (beforeEnemy realLibm (clashWorld startCamera) ⟨0, noKeys⟩).enemyBox.center) = none ∧
    tick realLibm (clashWorld startCamera) ⟨0, noKeys⟩ = none := by
  have heq : (refreshBoxes (clashWorld startCamera)).playerBox.center
      = (refreshBoxes (clashWorld startCamera)).enemyBox.center := rfl
  have hI : Intersects (refreshBoxes (clashWorld startCamera)).playerBox
      (refreshBoxes (clashWorld startCamera)).enemyBox = true := by
    rw [Intersects_eq_true_iff]
    norm_num [refreshBoxes, clashWorld, initialWorld, abs_div, abs_neg]
  rw [beforeEnemy_clashWorld]
  refine ⟨heq, hI, ?_, ?_⟩
  · rw [heq]
    simp only [Vec2.normalizeUnguarded, Vec2.sub, Vec2.dot, sub_self, mul_zero, add_zero,
      realLibm_sqrtSpec.sqrt_zero, if_true]
  · rw [tick, beforeEnemy_clashWorld, knockback_coincident realLibm_sqrtSpec _ hI heq]
    rfl

/-- C19 (as stated, refuted): with the previous frame stamped at time 2 and the
current time 1, the elapsed time the pass uses is -1, not clamped; with forward
pressed the player moves to z = +3 (backward), and the enemy, whose direction
is +1, moves from x = -6 to x = -7. -/
theorem C19_negative_elapsed_time_is_used :
    (frameTime (lateStampWorld startCamera) 1).deltaTime = -1 ∧
    (beforeRocks realLibm (lateStampWorld startCamera) ⟨1, keysW⟩).deltaTime < 0 ∧
    (beforeRocks realLibm (lateStampWorld startCamera) ⟨1, keysW⟩).playerPos = ⟨0, 0, 3⟩ ∧
    (lateStampWorld startCamera).enemyDir = 1 ∧
    (lateStampWorld startCamera).enemyPos.x = -6 ∧
    (beforeRocks realLibm (lateStampWorld startCamera) ⟨1, keysW⟩).enemyPos.x = -7 := by
  refine ⟨?_, ?_, ?_, rfl, rfl, ?_⟩
  · norm_num [frameTime, lateStampWorld, initialWorld]
  · norm_num [beforeRocks, refreshBoxes, patrolEnemy, movePlayer, frameTime, lateStampWorld,
      initialWorld]
  · simp [beforeRocks, refreshBoxes, patrolEnemy, movePlayer, frameTime, lateStampWorld,
      initialWorld, processInput, inputDir, keysW, Vec3.length, Vec3.dot, Vec3.normalize,
      Vec3.add, Vec3.scale, realLibm]
    norm_num
  · norm_num [beforeRocks, refreshBoxes, patrolEnemy, patrolStep, movePlayer, frameTime,
      lateStampWorld, initialWorld]

end FrameClaims


/-! ## Helper lemmas for the rounded code -/

/-- Zero rounds to zero. -/
theorem roundPos_zero : roundPos 0 = 0 := by decide!

/-- Binary32 rounding is odd: it rounds the magnitude and keeps the sign. -/
theorem roundF32_neg (q : ℚ) : roundF32 (-q) = -roundF32 q := by
  unfold roundF32
  rcases lt_trichotomy q 0 with h | h | h
  · have h2 : ¬ (-q < 0) := not_lt.mpr (le_of_lt (neg_pos.mpr h))
    rw [if_neg h2, if_pos h, neg_neg]
  · subst h
    simp only [neg_zero, lt_self_iff_false, if_false, roundPos_zero]
  · have h2 : -q < 0 := neg_neg_of_pos h
    rw [if_pos h2, if_neg (not_lt.mpr (le_of_lt h)), neg_neg]

section RoundedLemmas

variable {α : Type} [LinearOrderedField α]

/-- With no rounding `IntersectsR` is `Intersects`. -/
theorem IntersectsR_id (a b : AABB2D α) : IntersectsR id a b = Intersects a b := rfl

/-- With no rounding `ResolveStaticR` is `ResolveStatic`. -/
theorem ResolveStaticR_id (m : ResolveArgs α) : ResolveStaticR id m = ResolveStatic m := rfl

/-- `IntersectsR` is false exactly when one of the two early returns fires. -/
theorem IntersectsR_eq_false_iff (fl : α → α) (a b : AABB2D α) :
    IntersectsR fl a b = false ↔
      |fl (a.center.x - b.center.x)| > fl (a.halfExt.x + b.halfExt.x) ∨
      |fl (a.center.y - b.center.y)| > fl (a.halfExt.y + b.halfExt.y) := by
  unfold IntersectsR
  by_cases hx : |fl (a.center.x - b.center.x)| > fl (a.halfExt.x + b.halfExt.x)
  · simp only [hx, if_true, true_or]
  · by_cases hy : |fl (a.center.y - b.center.y)| > fl (a.halfExt.y + b.halfExt.y)
    · simp only [hx, hy, if_true, if_false, or_true]
    · simp only [hx, hy, if_false, or_self, Bool.true_eq_false]

/-- First branch of `ResolveStaticR`: the early return. -/
theorem ResolveStaticR_separated (fl : α → α) (m : ResolveArgs α)
    (h : penXR fl m.statBox m.dynBox < 0 ∨ penZR fl m.statBox m.dynBox < 0) :
    ResolveStaticR fl m = m := by
  unfold penXR penZR at h
  simp only [ResolveStaticR, h, if_true]

/-- Second branch of `ResolveStaticR`: the push along x. -/
theorem ResolveStaticR_shallow_x (fl : α → α) (m : ResolveArgs α)
    (hn : ¬ (penXR fl m.statBox m.dynBox < 0 ∨ penZR fl m.statBox m.dynBox < 0))
    (hlt : penXR fl m.statBox m.dynBox < penZR fl m.statBox m.dynBox) :
    ResolveStaticR fl m =
      { statBox := m.statBox
        dynBox :=
          { center :=
              ⟨fl (m.dynBox.center.x
                + fl (pushSign (fl (m.dynBox.center.x - m.statBox.center.x))
                    * penXR fl m.statBox m.dynBox)),
               m.dynBox.center.y⟩
            halfExt := m.dynBox.halfExt }
        playerPos :=
          ⟨fl (m.playerPos.x
            + fl (pushSign (fl (m.dynBox.center.x - m.statBox.center.x))
                * penXR fl m.statBox m.dynBox)),
           m.playerPos.y, m.playerPos.z⟩ } := by
  unfold penXR penZR at hn hlt
  unfold penXR pushSign
  simp only [ResolveStaticR, hn, hlt, if_true, if_false]

/-- Third branch of `ResolveStaticR`: the push along z. -/
theorem ResolveStaticR_shallow_z (fl : α → α) (m : ResolveArgs α)
    (hn : ¬ (penXR fl m.statBox m.dynBox < 0 ∨ penZR fl m.statBox m.dynBox < 0))
    (hge : ¬ penXR fl m.statBox m.dynBox < penZR fl m.statBox m.dynBox) :
    ResolveStaticR fl m =
      { statBox := m.statBox
        dynBox :=
          { center :=
              ⟨m.dynBox.center.x,
               fl (m.dynBox.center.y
                + fl (pushSign (fl (m.dynBox.center.y - m.statBox.center.y))
                    * penZR fl m.statBox m.dynBox))⟩
            halfExt := m.dynBox.halfExt }
        playerPos :=
          ⟨m.playerPos.x, m.playerPos.y,
           fl (m.playerPos.z
            + fl (pushSign (fl (m.dynBox.center.y - m.statBox.center.y))
                * penZR fl m.statBox m.dynBox))⟩ } := by
  unfold penXR penZR at hn hge
  unfold penZR pushSign
  simp only [ResolveStaticR, hn, hge, if_false]

/-- What `ResolveStaticR` never writes: the static box, the half extents, and
the centre coordinate of the axis it does not correct. -/
theorem ResolveStaticR_frame (fl : α → α) (m : ResolveArgs α) :
    (ResolveStaticR fl m).statBox = m.statBox ∧
    (ResolveStaticR fl m).dynBox.halfExt = m.dynBox.halfExt ∧
    (penXR fl m.statBox m.dynBox < penZR fl m.statBox m.dynBox →
      (ResolveStaticR fl m).dynBox.center.y = m.dynBox.center.y) ∧
    (¬ penXR fl m.statBox m.dynBox < penZR fl m.statBox m.dynBox →
      (ResolveStaticR fl m).dynBox.center.x = m.dynBox.center.x) := by
  by_cases hs : penXR fl m.statBox m.dynBox < 0 ∨ penZR fl m.statBox m.dynBox < 0
  · rw [ResolveStaticR_separated fl m hs]
    exact ⟨rfl, rfl, fun _ => rfl, fun _ => rfl⟩
  · by_cases hlt : penXR fl m.statBox m.dynBox < penZR fl m.statBox m.dynBox
    · rw [ResolveStaticR_shallow_x fl m hs hlt]
      exact ⟨rfl, rfl, fun _ => rfl, fun hn => absurd hlt hn⟩
    · rw [ResolveStaticR_shallow_z fl m hs hlt]
      exact ⟨rfl, rfl, fun hn => absurd hn hlt, fun _ => rfl⟩

/-- A state in resting contact is a fixed point of `ResolveStaticR`: when the
call returns early, or the penetration on the axis it corrects is zero, and
the coordinates it would write are values of the rounding. -/
theorem ResolveStaticR_fixed (fl : α → α) (h0 : fl 0 = 0) (r : ResolveArgs α)
    (hpx : fl r.playerPos.x = r.playerPos.x) (hpz : fl r.playerPos.z = r.playerPos.z)
    (hcx : fl r.dynBox.center.x = r.dynBox.center.x)
    (hcy : fl r.dynBox.center.y = r.dynBox.center.y)
    (hc : penXR fl r.statBox r.dynBox < 0 ∨ penZR fl r.statBox r.dynBox < 0 ∨
      (penXR fl r.statBox r.dynBox < penZR fl r.statBox r.dynBox ∧
        penXR fl r.statBox r.dynBox = 0) ∨
      (¬ penXR fl r.statBox r.dynBox < penZR fl r.statBox r.dynBox ∧
        penZR fl r.statBox r.dynBox = 0)) :
    ResolveStaticR fl r = r := by
  by_cases hs : penXR fl r.statBox r.dynBox < 0 ∨ penZR fl r.statBox r.dynBox < 0
  · exact ResolveStaticR_separated fl r hs
  · rcases hc with h | h | ⟨hlt, hz⟩ | ⟨hge, hz⟩
    · exact absurd (Or.inl h) hs
    · exact absurd (Or.inr h) hs
    · rw [ResolveStaticR_shallow_x fl r hs hlt, hz, mul_zero, h0, add_zero, add_zero, hpx, hcx]
    · rw [ResolveStaticR_shallow_z fl r hs hge, hz, mul_zero, h0, add_zero, add_zero, hpz, hcy]

end RoundedLemmas

/-! ## Claims that depend on where a push lands -/

section RoundedClaims

variable {α : Type} [LinearOrderedField α]

/-- C1 (amended): whatever the rounding of the float operations, after
`ResolveStatic` on a pair that `Intersects` reports as overlapping, the axis it
did not correct (z when `px < pz`, x otherwise) still passes the overlap test,
so the re-test of the static box against the corrected dynamic box is false
exactly when the centre distance on the corrected axis exceeds the sum of the
half extents on that axis. -/
theorem C1_retest_decided_by_corrected_axis (fl : α → α) (hodd : ∀ x, fl (-x) = -fl x)
    (m : ResolveArgs α) (h : IntersectsR fl m.dynBox m.statBox = true) :
    (penXR fl m.statBox m.dynBox < penZR fl m.statBox m.dynBox →
      ¬ (|fl (m.statBox.center.y - (ResolveStaticR fl m).dynBox.center.y)|
          > fl (m.statBox.halfExt.y + (ResolveStaticR fl m).dynBox.halfExt.y)) ∧
      (IntersectsR fl m.statBox (ResolveStaticR fl m).dynBox = false ↔
        |fl (m.statBox.center.x - (ResolveStaticR fl m).dynBox.center.x)|
          > fl (m.statBox.halfExt.x + (ResolveStaticR fl m).dynBox.halfExt.x))) ∧
    (¬ penXR fl m.statBox m.dynBox < penZR fl m.statBox m.dynBox →
      ¬ (|fl (m.statBox.center.x - (ResolveStaticR fl m).dynBox.center.x)|
          > fl (m.statBox.halfExt.x + (ResolveStaticR fl m).dynBox.halfExt.x)) ∧
      (IntersectsR fl m.statBox (ResolveStaticR fl m).dynBox = false ↔
        |fl (m.statBox.center.y - (ResolveStaticR fl m).dynBox.center.y)|
          > fl (m.statBox.halfExt.y + (ResolveStaticR fl m).dynBox.halfExt.y))) := by
  have hsym : ∀ a b : α, |fl (a - b)| = |fl (b - a)| := by
    intro a b
    rw [← neg_sub b a, hodd, abs_neg]
  have hnf : ¬ (IntersectsR fl m.dynBox m.statBox = false) := by rw [h]; exact Bool.noConfusion
  rw [IntersectsR_eq_false_iff] at hnf
  have hx0 : ¬ (|fl (m.statBox.center.x - m.dynBox.center.x)|
      > fl (m.statBox.halfExt.x + m.dynBox.halfExt.x)) := by
    rw [hsym, add_comm]; exact fun hc => hnf (Or.inl hc)
  have hy0 : ¬ (|fl (m.statBox.center.y - m.dynBox.center.y)|
      > fl (m.statBox.halfExt.y + m.dynBox.halfExt.y)) := by
    rw [hsym, add_comm]; exact fun hc => hnf (Or.inr hc)
  obtain ⟨-, hh, hcy, hcx⟩ := ResolveStaticR_frame fl m
  refine ⟨fun hlt => ?_, fun hge => ?_⟩
  · have hy1 : ¬ (|fl (m.statBox.center.y - (ResolveStaticR fl m).dynBox.center.y)|
        > fl (m.statBox.halfExt.y + (ResolveStaticR fl m).dynBox.halfExt.y)) := by
      rw [hcy hlt, hh]; exact hy0
    refine ⟨hy1, ?_⟩
    rw [IntersectsR_eq_false_iff]
    exact ⟨fun hor => hor.resolve_right hy1, fun hx => Or.inl hx⟩
  · have hx1 : ¬ (|fl (m.statBox.center.x - (ResolveStaticR fl m).dynBox.center.x)|
        > fl (m.statBox.halfExt.x + (ResolveStaticR fl m).dynBox.halfExt.x)) := by
      rw [hcx hge, hh]; exact hx0
    refine ⟨hx1, ?_⟩
    rw [IntersectsR_eq_false_iff]
    exact ⟨fun hor => hor.resolve_left hx1, fun hy => Or.inr hy⟩

/-- Witness for C1 (amended): in binary32, the player at (5, 0, 4) overlaps the
fourth rock, is pushed along z to 4.9000001, one rounding past contact, and the
re-test is false. -/
theorem C1_retest_decided_by_corrected_axis_witness :
    (∀ x : ℚ, roundF32 (-x) = -roundF32 x) ∧
    IntersectsR roundF32 pastContact32.dynBox pastContact32.statBox = true ∧
    (ResolveStaticR roundF32 pastContact32).dynBox.center.y = 10276045 / 2097152 ∧
    IntersectsR roundF32 pastContact32.statBox (ResolveStaticR roundF32 pastContact32).dynBox
      = false :=
  ⟨roundF32_neg, by decide!, by decide!,
   ((C1_retest_decided_by_corrected_axis roundF32 roundF32_neg pastContact32
      (by decide!)).2 (by decide!)).2.mpr (by decide!)⟩

/-- C20 (as stated, refuted): in binary32, with the player at (1.5, 0, -0.55f)
against the first rock, the first `ResolveStatic` moves z to -0.40000004, a
second one recomputes a positive penetration and moves z again, to
-0.39999992. -/
theorem C20_second_call_moves_in_binary32 :
    IntersectsR roundF32 shortOfContact32.dynBox shortOfContact32.statBox = true ∧
    (ResolveStaticR roundF32 shortOfContact32).playerPos.z = -(6710887 / 16777216) ∧
    penZR roundF32 shortOfContact32.statBox (ResolveStaticR roundF32 shortOfContact32).dynBox
      = 1 / 8388608 ∧
    (ResolveStaticR roundF32 (ResolveStaticR roundF32 shortOfContact32)).playerPos.z
      = -(6710885 / 16777216) ∧
    ResolveStaticR roundF32 (ResolveStaticR roundF32 shortOfContact32)
      ≠ ResolveStaticR roundF32 shortOfContact32 :=
  ⟨by decide!, by decide!, by decide!, by decide!, by decide!⟩

/-- C20 (amended): whatever the rounding of the float operations, a second
`ResolveStatic` on the result of the first changes nothing when, on that
result, the call returns early or the penetration on the axis it corrects is
exactly zero (the first push landed exactly on contact); in exact arithmetic
that is the case for every input, so there `ResolveStatic` is idempotent. -/
theorem C20_second_call_fixed_at_contact (fl : α → α) (h0 : fl 0 = 0) (m : ResolveArgs α)
    (hpx : fl (ResolveStaticR fl m).playerPos.x = (ResolveStaticR fl m).playerPos.x)
    (hpz : fl (ResolveStaticR fl m).playerPos.z = (ResolveStaticR fl m).playerPos.z)
    (hcx : fl (ResolveStaticR fl m).dynBox.center.x = (ResolveStaticR fl m).dynBox.center.x)
    (hcy : fl (ResolveStaticR fl m).dynBox.center.y = (ResolveStaticR fl m).dynBox.center.y)
    (hc : penXR fl (ResolveStaticR fl m).statBox (ResolveStaticR fl m).dynBox < 0 ∨
      penZR fl (ResolveStaticR fl m).statBox (ResolveStaticR fl m).dynBox < 0 ∨
      (penXR fl (ResolveStaticR fl m).statBox (ResolveStaticR fl m).dynBox
          < penZR fl (ResolveStaticR fl m).statBox (ResolveStaticR fl m).dynBox ∧
        penXR fl (ResolveStaticR fl m).statBox (ResolveStaticR fl m).dynBox = 0) ∨
      (¬ penXR fl (ResolveStaticR fl m).statBox (ResolveStaticR fl m).dynBox
          < penZR fl (ResolveStaticR fl m).statBox (ResolveStaticR fl m).dynBox ∧
        penZR fl (ResolveStaticR fl m).statBox (ResolveStaticR fl m).dynBox = 0)) :
    ResolveStaticR fl (ResolveStaticR fl m) = ResolveStaticR fl m ∧
    (ResolveStaticR fl (ResolveStaticR fl m)).dynBox = (ResolveStaticR fl m).dynBox ∧
    (ResolveStaticR fl (ResolveStaticR fl m)).playerPos = (ResolveStaticR fl m).playerPos ∧
    (∀ e : ResolveArgs α, ResolveStatic (ResolveStatic e) = ResolveStatic e) := by
  have h := ResolveStaticR_fixed fl h0 (ResolveStaticR fl m) hpx hpz hcx hcy hc
  exact ⟨h, by rw [h], by rw [h], ResolveStatic_idem⟩

/-- Witness for C20 (amended): scenario 2 of the spec in binary32; the first
push lands exactly on contact (recomputed `pz = 0`) and the second call changes
nothing. -/
theorem C20_second_call_fixed_at_contact_witness :
    roundF32 0 = 0 ∧
    penZR roundF32 (ResolveStaticR roundF32 scenario2F32).statBox
      (ResolveStaticR roundF32 scenario2F32).dynBox = 0 ∧
    ResolveStaticR roundF32 (ResolveStaticR roundF32 scenario2F32)
      = ResolveStaticR roundF32 scenario2F32 :=
  ⟨by decide!, by decide!,
   (C20_second_call_fixed_at_contact roundF32 (by decide!) scenario2F32 (by decide!)
      (by decide!) (by decide!) (by decide!) (by decide!)).1⟩

end RoundedClaims

/-! ## Claims on the camera blend and the frame time -/

section CameraTimeClaims

variable {α : Type} [LinearOrderedField α]

/-- C14 (as stated, refuted): with the smoothing 0.15 of the source, a camera
that is already at the desired position (player at the origin, yaw 0, back 4.5,
height 2.2) is on no coordinate strictly between the previous and the desired
position after the update, since these coincide.  In binary32 the same fails
with previous and desired different: from y = 2.200001 toward `2.2f` the blend
returns the previous value, and the blend of 3 with 3 is 3.0000002. -/
theorem C14_camera_not_strictly_between :
    (0 : ℝ) < 3 / 20 ∧ (3 / 20 : ℝ) < 1 ∧
    (restingCamera : Camera ℝ).Position
      = desiredCameraPos realLibm ⟨0, 0, 0⟩ 0 (9 / 2) (11 / 5) ∧
    ¬ StrictlyBetween (restingCamera : Camera ℝ).Position.x
      (updateFollowCamera realLibm restingCamera ⟨0, 0, 0⟩ 0 (9 / 2) (11 / 5) (3 / 20)).Position.x
      (desiredCameraPos realLibm ⟨0, 0, 0⟩ 0 (9 / 2) (11 / 5)).x ∧
    ¬ StrictlyBetween (restingCamera : Camera ℝ).Position.y
      (updateFollowCamera realLibm restingCamera ⟨0, 0, 0⟩ 0 (9 / 2) (11 / 5) (3 / 20)).Position.y
      (desiredCameraPos realLibm ⟨0, 0, 0⟩ 0 (9 / 2) (11 / 5)).y ∧
    ¬ StrictlyBetween (restingCamera : Camera ℝ).Position.z
      (updateFollowCamera realLibm restingCamera ⟨0, 0, 0⟩ 0 (9 / 2) (11 / 5) (3 / 20)).Position.z
      (desiredCameraPos realLibm ⟨0, 0, 0⟩ 0 (9 / 2) (11 / 5)).z ∧
    (9227473 / 4194304 : ℚ) ≠ roundF32 (11 / 5) ∧
    mixR roundF32 (9227473 / 4194304) (roundF32 (11 / 5)) (roundF32 (3 / 20))
      = 9227473 / 4194304 ∧
    mixR roundF32 3 3 (roundF32 (3 / 20)) = 12582913 / 4194304 := by
  have hd : desiredCameraPos realLibm ⟨0, 0, 0⟩ 0 (9 / 2) (11 / 5)
      = (restingCamera : Camera ℝ).Position := by
    simp [desiredCameraPos, radians, realLibm, restingCamera, Vec3.add, Vec3.scale]
  have hno : ∀ a b : ℝ, ¬ StrictlyBetween a b a := by
    intro a b h
    rcases h with ⟨h1, h2⟩ | ⟨h1, h2⟩
    · exact lt_irrefl a (lt_trans h1 h2)
    · exact lt_irrefl a (lt_trans h1 h2)
  rw [hd]
  exact ⟨by norm_num, by norm_num, rfl, hno _ _, hno _ _, hno _ _, by decide!, by decide!,
    by decide!⟩

/-- C14 (amended): in exact arithmetic, for a smoothing factor strictly
between 0 and 1, the camera position after `updateFollowCamera` is
previous + smoothing * (desired - previous), where desired is the player
position plus the back vector (-sin yaw, 0, -cos yaw) times the back distance
plus the height; on every coordinate on which previous and desired differ it
lies strictly between them, on a coordinate on which they coincide it stays
there, and when previous and desired differ it is neither of them. -/
theorem C14_camera_between_exact (L : Libm α) (camera : Camera α) (playerPos : Vec3 α)
    (playerYawDeg distBack height smoothAlpha : α) (d : Vec3 α)
    (hd : d = ⟨playerPos.x - L.sin (playerYawDeg * (L.pi / 180)) * distBack,
               playerPos.y + height,
               playerPos.z - L.cos (playerYawDeg * (L.pi / 180)) * distBack⟩)
    (h0 : 0 < smoothAlpha) (h1 : smoothAlpha < 1) :
    (updateFollowCamera L camera playerPos playerYawDeg distBack height smoothAlpha).Position
      = Vec3.add camera.Position (Vec3.scale (Vec3.sub d camera.Position) smoothAlpha) ∧
    (camera.Position.x ≠ d.x → StrictlyBetween camera.Position.x
      (updateFollowCamera L camera playerPos playerYawDeg distBack height smoothAlpha).Position.x
      d.x) ∧
    (camera.Position.y ≠ d.y → StrictlyBetween camera.Position.y
      (updateFollowCamera L camera playerPos playerYawDeg distBack height smoothAlpha).Position.y
      d.y) ∧
    (camera.Position.z ≠ d.z → StrictlyBetween camera.Position.z
      (updateFollowCamera L camera playerPos playerYawDeg distBack height smoothAlpha).Position.z
      d.z) ∧
    (camera.Position.x = d.x →
      (updateFollowCamera L camera playerPos playerYawDeg distBack height smoothAlpha).Position.x
        = d.x) ∧
    (camera.Position.y = d.y →
      (updateFollowCamera L camera playerPos playerYawDeg distBack height smoothAlpha).Position.y
        = d.y) ∧
    (camera.Position.z = d.z →
      (updateFollowCamera L camera playerPos playerYawDeg distBack height smoothAlpha).Position.z
        = d.z) ∧
    (camera.Position ≠ d →
      (updateFollowCamera L camera playerPos playerYawDeg distBack height smoothAlpha).Position
        ≠ camera.Position ∧
      (updateFollowCamera L camera playerPos playerYawDeg distBack height smoothAlpha).Position
        ≠ d) := by
  have hdes : desiredCameraPos L playerPos playerYawDeg distBack height = d := by
    rw [hd]
    simp only [desiredCameraPos, radians, Vec3.add, Vec3.scale, Vec3.mk.injEq]
    refine ⟨by ring, by ring, by ring⟩
  have hpos : (updateFollowCamera L camera playerPos playerYawDeg distBack height
      smoothAlpha).Position = Vec3.mix camera.Position d smoothAlpha := by
    show Vec3.mix camera.Position (desiredCameraPos L playerPos playerYawDeg distBack height)
      smoothAlpha = _
    rw [hdes]
  rw [hpos]
  generalize camera.Position = c
  have hs : 0 < 1 - smoothAlpha := sub_pos.mpr h1
  have blend : ∀ a b : α, a * (1 - smoothAlpha) + b * smoothAlpha = a + smoothAlpha * (b - a) :=
    fun a b => by ring
  have btw : ∀ a b : α, a ≠ b →
      StrictlyBetween a (a * (1 - smoothAlpha) + b * smoothAlpha) b := by
    intro a b hne
    rw [blend]
    rcases lt_or_gt_of_ne hne with h | h
    · have hp : 0 < b - a := sub_pos.mpr h
      exact Or.inl ⟨by nlinarith [mul_pos h0 hp], by nlinarith [mul_pos hs hp]⟩
    · have hp : 0 < a - b := sub_pos.mpr h
      exact Or.inr ⟨by nlinarith [mul_pos hs hp], by nlinarith [mul_pos h0 hp]⟩
  have stay : ∀ a b : α, a = b → a * (1 - smoothAlpha) + b * smoothAlpha = b := by
    intro a b h
    rw [h]; ring
  have fixA : ∀ a b : α, a * (1 - smoothAlpha) + b * smoothAlpha = a → a = b := by
    intro a b h
    rw [blend] at h
    have h2 : smoothAlpha * (b - a) = 0 := by linarith
    rcases mul_eq_zero.mp h2 with h3 | h3
    · exact absurd h3 (ne_of_gt h0)
    · linarith
  have fixB : ∀ a b : α, a * (1 - smoothAlpha) + b * smoothAlpha = b → a = b := by
    intro a b h
    have h2 : (1 - smoothAlpha) * (a - b) = 0 := by linarith
    rcases mul_eq_zero.mp h2 with h3 | h3
    · exact absurd h3 (ne_of_gt hs)
    · linarith
  refine ⟨?_, btw _ _, btw _ _, btw _ _, stay _ _, stay _ _, stay _ _,
    fun hne => ⟨fun h => hne ?_, fun h => hne ?_⟩⟩
  · simp only [Vec3.mix, Vec3.add, Vec3.scale, Vec3.sub, blend, mul_comm smoothAlpha]
  · obtain ⟨cx, cy, cz⟩ := c
    obtain ⟨dx, dy, dz⟩ := d
    simp only [Vec3.mix, Vec3.mk.injEq] at h
    rw [fixA _ _ h.1, fixA _ _ h.2.1, fixA _ _ h.2.2]
  · obtain ⟨cx, cy, cz⟩ := c
    obtain ⟨dx, dy, dz⟩ := d
    simp only [Vec3.mix, Vec3.mk.injEq] at h
    rw [fixB _ _ h.1, fixB _ _ h.2.1, fixB _ _ h.2.2]

/-- Witness for C14 (amended): the smoothing 0.15 of the source, the camera at
its start position (0, 3, 6) and the player at the origin with yaw 0; the
camera height moves from 3 toward 2.2 and is strictly between them. -/
theorem C14_camera_between_exact_witness :
    (0 : ℝ) < 3 / 20 ∧ (3 / 20 : ℝ) < 1 ∧
    StrictlyBetween startCamera.Position.y
      (updateFollowCamera realLibm startCamera ⟨0, 0, 0⟩ 0 (9 / 2) (11 / 5) (3 / 20)).Position.y
      ((0 : ℝ) + 11 / 5) :=
  ⟨by norm_num, by norm_num,
   (C14_camera_between_exact realLibm startCamera ⟨0, 0, 0⟩ 0 (9 / 2) (11 / 5) (3 / 20)
      ⟨0 - realLibm.sin (0 * (realLibm.pi / 180)) * (9 / 2), 0 + 11 / 5,
       0 - realLibm.cos (0 * (realLibm.pi / 180)) * (9 / 2)⟩ rfl
      (by norm_num) (by norm_num)).2.2.1 (by norm_num [startCamera])⟩

/-- C19 (amended): for every previous and current time stamp, the elapsed time
a pass feeds to the player movement and to the enemy patrol is the plain
difference current - previous, with no clamp: the player position is the one
`processInput` returns for that difference and the enemy x advances by
direction * patrolSpeed * that difference.  The elapsed time is non-negative
exactly when the current stamp is not earlier than the previous one and
negative exactly when it is earlier; when it is not earlier, the enemy (with a
non-negative patrol speed) does not move against its direction and the player
does not move against the key direction. -/
theorem C19_elapsed_time_is_plain_difference (L : Libm α) (w : World α) (i : FrameInput α) :
    (frameTime w i.currentFrame).deltaTime = i.currentFrame - w.lastFrame ∧
    (beforeRocks L w i).deltaTime = i.currentFrame - w.lastFrame ∧
    (beforeRocks L w i).playerPos
      = (processInput L i.keys (i.currentFrame - w.lastFrame) w.shouldClose w.playerPos 3
          w.playerYawDeg).playerPos ∧
    (beforeRocks L w i).enemyPos.x
      = w.enemyPos.x + w.enemyDir * w.enemyPatrolSpeed * (i.currentFrame - w.lastFrame) ∧
    (0 ≤ (beforeRocks L w i).deltaTime ↔ w.lastFrame ≤ i.currentFrame) ∧
    ((beforeRocks L w i).deltaTime < 0 ↔ i.currentFrame < w.lastFrame) ∧
    (w.lastFrame ≤ i.currentFrame → 0 ≤ w.enemyPatrolSpeed →
      0 ≤ ((beforeRocks L w i).enemyPos.x - w.enemyPos.x) * w.enemyDir) ∧
    (SqrtSpec L → w.lastFrame ≤ i.currentFrame →
      0 ≤ Vec3.dot (Vec3.sub (beforeRocks L w i).playerPos w.playerPos) (inputDir i.keys)) := by
  refine ⟨rfl, rfl, rfl, rfl, sub_nonneg, sub_neg, fun ht hv => ?_, fun hL ht => ?_⟩
  · have hdt : 0 ≤ i.currentFrame - w.lastFrame := sub_nonneg.mpr ht
    show 0 ≤ (w.enemyPos.x + w.enemyDir * w.enemyPatrolSpeed * (i.currentFrame - w.lastFrame)
      - w.enemyPos.x) * w.enemyDir
    have e : (w.enemyPos.x + w.enemyDir * w.enemyPatrolSpeed * (i.currentFrame - w.lastFrame)
        - w.enemyPos.x) * w.enemyDir
        = (w.enemyDir * w.enemyDir) * (w.enemyPatrolSpeed * (i.currentFrame - w.lastFrame)) := by
      ring
    rw [e]
    exact mul_nonneg (mul_self_nonneg _) (mul_nonneg hv hdt)
  · have hdt : 0 ≤ i.currentFrame - w.lastFrame := sub_nonneg.mpr ht
    show 0 ≤ Vec3.dot (Vec3.sub (processInput L i.keys (i.currentFrame - w.lastFrame)
      w.shouldClose w.playerPos 3 w.playerYawDeg).playerPos w.playerPos) (inputDir i.keys)
    by_cases hd : (inputDir i.keys : Vec3 α) = ⟨0, 0, 0⟩
    · rw [(processInput_of_dir_zero hL i.keys _ _ _ _ _ hd).1]
      simp only [Vec3.sub, Vec3.dot, sub_self, zero_mul, add_zero, le_refl]
    · rw [(processInput_of_dir_ne_zero hL i.keys _ _ _ _ _ hd).1]
      have hn := inputDir_dot_pos i.keys hd
      have hs := hL.sqrt_pos hn
      have hy := inputDir_y (α := α) i.keys
      simp only [Vec3.normalize]
      generalize L.sqrt (Vec3.dot (inputDir i.keys : Vec3 α) (inputDir i.keys)) = s at hs
      simp only [Vec3.sub, Vec3.add, Vec3.scale, Vec3.dot, add_sub_cancel_left, zero_mul,
        add_zero, hy, mul_zero]
      have e : ∀ a : α, a * (1 / s) * 3 * (i.currentFrame - w.lastFrame) * a
          = (a * a) * ((1 / s) * (3 * (i.currentFrame - w.lastFrame))) := fun a => by ring
      rw [e, e]
      have hc : 0 ≤ (1 / s) * (3 * (i.currentFrame - w.lastFrame)) :=
        mul_nonneg (le_of_lt (one_div_pos.mpr hs)) (mul_nonneg (by norm_num) hdt)
      exact add_nonneg (mul_nonneg (mul_self_nonneg _) hc) (mul_nonneg (mul_self_nonneg _) hc)

/-- Witness for C19 (amended): with the previous frame stamped at time 2 and
the current time 1 the elapsed time is 1 - 2, negative; in the first pass from
the start state at time 1/60 it is non-negative and the player does not move
against the key direction. -/
theorem C19_elapsed_time_is_plain_difference_witness :
    (beforeRocks realLibm (lateStampWorld startCamera) ⟨1, keysW⟩).deltaTime
      = 1 - (lateStampWorld startCamera).lastFrame ∧
    SqrtSpec realLibm ∧
    (initialWorld startCamera).lastFrame ≤ (1 / 60 : ℝ) ∧
    0 ≤ Vec3.dot
      (Vec3.sub (beforeRocks realLibm (initialWorld startCamera) ⟨1 / 60, keysW⟩).playerPos
        (initialWorld startCamera).playerPos) (inputDir keysW) :=
  have ht : (initialWorld startCamera).lastFrame ≤ (1 / 60 : ℝ) := by
    norm_num [initialWorld]
  ⟨(C19_elapsed_time_is_plain_difference realLibm (lateStampWorld startCamera)
      ⟨1, keysW⟩).2.1,
   realLibm_sqrtSpec, ht,
   (C19_elapsed_time_is_plain_difference realLibm (initialWorld startCamera)
      ⟨1 / 60, keysW⟩).2.2.2.2.2.2.2 realLibm_sqrtSpec ht⟩

end CameraTimeClaims


end Game
